import Mathlib

/-!
Verification of the document persistence, normalization and export layer of
the math_cursor project (files `src/electron/backend/storage.js`,
`src/electron/backend/latex.js` and the `project:*` IPC handlers).

The JavaScript values manipulated by the code are parsed JSON documents; we
embed them as the inductive type `Json` below.  JavaScript objects preserve
insertion order of their fields, so objects are embedded as ordered
association lists; `getF`, `setF` and `delF` mirror property read, property
assignment (update in place when the key exists, append otherwise) and the
`delete` operator.  Stored project files are modelled at the parsed-document
level: the SHA-256 over the serialized bytes (`computeEtag`) is abstracted as
a parameter `etagOf : Json → String` over the stored document, and fresh
UUIDs (`crypto.randomUUID`) and clock reads (`new Date().toISOString()`) are
abstracted as an indexed supply `g : Nat → String` (with a threaded call
counter) and explicit `now` parameters.
-/

set_option autoImplicit false

namespace MathCursor

/-- Parsed JSON values; JavaScript objects keep field insertion order, so an
object is an ordered association list of fields. -/
inductive Json : Type where
  | null : Json
  | bool : Bool → Json
  | num : Int → Json
  | str : String → Json
  | arr : List Json → Json
  | obj : List (String × Json) → Json
deriving Repr, Inhabited

mutual

def decEqJson : (a b : Json) → Decidable (a = b)
  | .null, .null => .isTrue rfl
  | .bool a, .bool b =>
    if h : a = b then .isTrue (by rw [h]) else .isFalse (fun hh => h (Json.bool.inj hh))
  | .num a, .num b =>
    if h : a = b then .isTrue (by rw [h]) else .isFalse (fun hh => h (Json.num.inj hh))
  | .str a, .str b =>
    if h : a = b then .isTrue (by rw [h]) else .isFalse (fun hh => h (Json.str.inj hh))
  | .arr xs, .arr ys =>
    match decEqJsonList xs ys with
    | .isTrue h => .isTrue (by rw [h])
    | .isFalse h => .isFalse (fun hh => h (Json.arr.inj hh))
  | .obj fs, .obj gs =>
    match decEqJsonFields fs gs with
    | .isTrue h => .isTrue (by rw [h])
    | .isFalse h => .isFalse (fun hh => h (Json.obj.inj hh))
  | .null, .bool _ => .isFalse (fun h => Json.noConfusion h)
  | .null, .num _ => .isFalse (fun h => Json.noConfusion h)
  | .null, .str _ => .isFalse (fun h => Json.noConfusion h)
  | .null, .arr _ => .isFalse (fun h => Json.noConfusion h)
  | .null, .obj _ => .isFalse (fun h => Json.noConfusion h)
  | .bool _, .null => .isFalse (fun h => Json.noConfusion h)
  | .bool _, .num _ => .isFalse (fun h => Json.noConfusion h)
  | .bool _, .str _ => .isFalse (fun h => Json.noConfusion h)
  | .bool _, .arr _ => .isFalse (fun h => Json.noConfusion h)
  | .bool _, .obj _ => .isFalse (fun h => Json.noConfusion h)
  | .num _, .null => .isFalse (fun h => Json.noConfusion h)
  | .num _, .bool _ => .isFalse (fun h => Json.noConfusion h)
  | .num _, .str _ => .isFalse (fun h => Json.noConfusion h)
  | .num _, .arr _ => .isFalse (fun h => Json.noConfusion h)
  | .num _, .obj _ => .isFalse (fun h => Json.noConfusion h)
  | .str _, .null => .isFalse (fun h => Json.noConfusion h)
  | .str _, .bool _ => .isFalse (fun h => Json.noConfusion h)
  | .str _, .num _ => .isFalse (fun h => Json.noConfusion h)
  | .str _, .arr _ => .isFalse (fun h => Json.noConfusion h)
  | .str _, .obj _ => .isFalse (fun h => Json.noConfusion h)
  | .arr _, .null => .isFalse (fun h => Json.noConfusion h)
  | .arr _, .bool _ => .isFalse (fun h => Json.noConfusion h)
  | .arr _, .num _ => .isFalse (fun h => Json.noConfusion h)
  | .arr _, .str _ => .isFalse (fun h => Json.noConfusion h)
  | .arr _, .obj _ => .isFalse (fun h => Json.noConfusion h)
  | .obj _, .null => .isFalse (fun h => Json.noConfusion h)
  | .obj _, .bool _ => .isFalse (fun h => Json.noConfusion h)
  | .obj _, .num _ => .isFalse (fun h => Json.noConfusion h)
  | .obj _, .str _ => .isFalse (fun h => Json.noConfusion h)
  | .obj _, .arr _ => .isFalse (fun h => Json.noConfusion h)

def decEqJsonList : (a b : List Json) → Decidable (a = b)
  | [], [] => .isTrue rfl
  | [], _ :: _ => .isFalse (fun h => List.noConfusion h)
  | _ :: _, [] => .isFalse (fun h => List.noConfusion h)
  | x :: xs, y :: ys =>
    match decEqJson x y with
    | .isFalse h1 => .isFalse (fun h => h1 (List.cons.inj h).1)
    | .isTrue h1 =>
      match decEqJsonList xs ys with
      | .isTrue h2 => .isTrue (by rw [h1, h2])
      | .isFalse h2 => .isFalse (fun h => h2 (List.cons.inj h).2)

def decEqJsonFields : (a b : List (String × Json)) → Decidable (a = b)
  | [], [] => .isTrue rfl
  | [], _ :: _ => .isFalse (fun h => List.noConfusion h)
  | _ :: _, [] => .isFalse (fun h => List.noConfusion h)
  | (k1, v1) :: xs, (k2, v2) :: ys =>
    if hk : k1 = k2 then
      match decEqJson v1 v2 with
      | .isFalse h1 =>
        .isFalse (by intro h; injection h with hh ht; exact h1 (congrArg Prod.snd hh))
      | .isTrue h1 =>
        match decEqJsonFields xs ys with
        | .isTrue h2 => .isTrue (by rw [hk, h1, h2])
        | .isFalse h2 => .isFalse (fun h => h2 (List.cons.inj h).2)
    else
      .isFalse (by intro h; injection h with hh ht; exact hk (congrArg Prod.fst hh))

end

instance : DecidableEq Json := decEqJson

namespace Json

/-- First value stored under a key, mirroring JavaScript property lookup on
an object (real JS objects have no duplicate keys; first match is faithful). -/
def getF : List (String × Json) → String → Option Json
  | [], _ => none
  | (k, v) :: rest, key => if k = key then some v else getF rest key

/-- JavaScript property assignment `o[key] = val`: update in place if the key
exists, append a new field otherwise. -/
def setF : List (String × Json) → String → Json → List (String × Json)
  | [], key, val => [(key, val)]
  | (k, v) :: rest, key, val =>
    if k = key then (k, val) :: rest else (k, v) :: setF rest key val

/-- JavaScript `delete o[key]`: afterwards the key is absent. -/
def delF (fs : List (String × Json)) (key : String) : List (String × Json) :=
  fs.filter (fun p => p.1 ≠ key)

/-- JavaScript truthiness of a value. -/
def truthy : Json → Bool
  | null => false
  | bool b => b
  | num n => n ≠ 0
  | str s => s ≠ ""
  | arr _ => true
  | obj _ => true

/-- `typeof v === 'object'` (true for objects, arrays and `null`). -/
def typeofObject : Json → Bool
  | null => true
  | arr _ => true
  | obj _ => true
  | _ => false

/-- Property read `v.key` on a value that is known not to be `null`
(reading a property of `null` throws in JS; the code guards every such read
with a truthiness check or optional chaining except one site, which is
embedded explicitly as a failure).  Missing properties give `none`
(JS `undefined`). -/
def jsGet : Json → String → Option Json
  | obj fs, key => getF fs key
  | _, _ => none

/-- `Array.isArray`. -/
def isArray : Json → Bool
  | arr _ => true
  | _ => false

/-- Whether an optional property value is a string (`typeof x === 'string'`). -/
def isStrOpt : Option Json → Bool
  | some (str _) => true
  | _ => false

end Json

/-- Decimal digit character. -/
def digitChar : Nat → Char
  | 0 => '0'
  | 1 => '1'
  | 2 => '2'
  | 3 => '3'
  | 4 => '4'
  | 5 => '5'
  | 6 => '6'
  | 7 => '7'
  | 8 => '8'
  | 9 => '9'
  | _ => '?'

/-- Decimal representation of a natural number as a character list, embedding
JavaScript number-to-string conversion for the (non-negative integer) indices
the code interpolates into template literals. -/
def natToStrL (n : Nat) : List Char :=
  if _h : n < 10 then [digitChar n]
  else natToStrL (n / 10) ++ [digitChar (n % 10)]
decreasing_by exact Nat.div_lt_self (by omega) (by omega)

/-- Decimal representation of a natural number as a string. -/
def natToStr (n : Nat) : String := (natToStrL n).asString

/-- Whitespace as stripped by `String.prototype.trim` (ASCII part: space,
tab, line feed, carriage return, vertical tab, form feed). -/
def isJsWs (c : Char) : Bool :=
  c = ' ' || c = '\t' || c = '\n' || c = '\r' || c = Char.ofNat 11 || c = Char.ofNat 12

/-- `String.prototype.trim` on a character list: drop whitespace from both
ends. -/
def trimL (l : List Char) : List Char :=
  ((l.dropWhile isJsWs).reverse.dropWhile isJsWs).reverse

/-- `String.prototype.trim`. -/
def jsTrim (s : String) : String := (trimL s.data).asString

mutual

/-- JavaScript `String(v)` conversion as used by template-literal
interpolation: strings unchanged, numbers in decimal, `null` → "null",
booleans spelled out, arrays joined by commas (with `null` elements becoming
empty), plain objects → "[object Object]". -/
def toJsString : Json → String
  | .null => "null"
  | .bool true => "true"
  | .bool false => "false"
  | .num n => toString n
  | .str s => s
  | .arr xs => joinElems xs
  | .obj _ => "[object Object]"

/-- `Array.prototype.join(',')` with JS element stringification
(`null`/`undefined` elements become the empty string). -/
def joinElems : List Json → String
  | [] => ""
  | [.null] => ""
  | [x] => toJsString x
  | .null :: y :: rest => "," ++ joinElems (y :: rest)
  | x :: y :: rest => toJsString x ++ "," ++ joinElems (y :: rest)

end

namespace Json

/-- Interpolation `${x}` of a property that may be absent (`undefined`
interpolates as "undefined"). -/
def interpOpt : Option Json → String
  | none => "undefined"
  | some v => toJsString v

/-- `x || ''` followed by interpolation: the stringified value when truthy,
otherwise the empty string. -/
def orEmpty : Option Json → String
  | some v => if v.truthy then toJsString v else ""
  | none => ""

/-- Object spread `{...v}`: fields of an object, index-keyed entries for an
array or a string, nothing for other primitives. -/
def spreadFields : Json → List (String × Json)
  | obj fs => fs
  | arr xs => xs.enum.map (fun p => (natToStr p.1, p.2))
  | str s => s.data.enum.map (fun p => (natToStr p.1, Json.str (String.singleton p.2)))
  | _ => []

end Json

open Json

/-- `generateId(prefix)` (storage.js:7): a fresh id `prefix-<uuid>`.  The
random part is the indexed supply `g` at the current call counter `k`; the
counter advances by one. -/
def generateId (pfx : String) (g : Nat → String) (k : Nat) : String × Nat :=
  (pfx ++ "-" ++ g k, k + 1)

/-- `defaultProject(projectId, title)` (storage.js:19-40) with the two
`isoNow()` reads abstracted as `now`.  `title || 'Untitled'` keeps a
non-empty title. -/
def defaultProject (pid title now : String) : Json :=
  Json.obj [("id", Json.str pid),
    ("title", Json.str (if title = "" then "Untitled" else title)),
    ("abstract", Json.str ""),
    ("owner", Json.str "local"),
    ("createdAt", Json.str now),
    ("updatedAt", Json.str now),
    ("notation", Json.arr []),
    ("definitions", Json.arr []),
    ("facts", Json.arr []),
    ("lemmas", Json.arr []),
    ("conjectures", Json.arr []),
    ("ideas", Json.arr []),
    ("pitfalls", Json.arr []),
    ("chatHistory", Json.arr []),
    ("chatThreads", Json.arr []),
    ("attempts", Json.arr []),
    ("attachments", Json.arr [])]

/-- The collection keys forced to arrays by `ensureProjectShape`
(storage.js:44-55). -/
def arrayKeys : List String :=
  ["notation", "definitions", "facts", "lemmas", "conjectures", "ideas",
   "pitfalls", "chatHistory", "attempts", "attachments"]

/-- One iteration of the loop in storage.js:56-60: a key that does not hold
an array is set to the empty array. -/
def ensArrStep (acc : List (String × Json)) (key : String) :
    List (String × Json) :=
  match getF acc key with
  | some (Json.arr _) => acc
  | _ => setF acc key (Json.arr [])

/-- storage.js:56-60: every key of `arrayKeys` that does not hold an array is
set to the empty array. -/
def ensureArrays (fs : List (String × Json)) : List (String × Json) :=
  arrayKeys.foldl ensArrStep fs

/-- storage.js:62-65: `{...lemma, proof: typeof lemma.proof === 'string' ?
lemma.proof : ''}`.  Reading `.proof` of a `null` element throws a TypeError
in JavaScript, embedded as `Except.error`. -/
def fixLemma : Json → Except Unit Json
  | Json.null => .error ()
  | l => .ok (Json.obj (setF (spreadFields l) "proof"
      (match l.jsGet "proof" with
       | some (Json.str p) => Json.str p
       | _ => Json.str "")))

/-- `Array.isArray(x) ? x : []` — the elements when the value is an array,
an empty list otherwise (also for a missing value). -/
def arrOrNil : Option Json → List Json
  | some (Json.arr xs) => xs
  | _ => []

/-- `typeof message.id === 'string' && message.id` — the id when it is a
non-empty string. -/
def strNonempty : Option Json → Option String
  | some (Json.str s) => if s = "" then none else some s
  | _ => none

/-- `message && typeof message.content === 'string'` (storage.js:70,133). -/
def wfMsg (m : Json) : Bool := m.truthy && isStrOpt (m.jsGet "content")

/-- `message.role === 'assistant' ? 'assistant' : 'user'`
(storage.js:73,136). -/
def roleVal (m : Json) : Json :=
  if m.jsGet "role" = some (Json.str "assistant") then Json.str "assistant"
  else Json.str "user"

/-- storage.js:69-75: the legacy flat `chatHistory` pass — keep messages with
string content, default a missing/empty id to `chat-<index>`, coerce the
role. -/
def normChatHistory (ms : List Json) : List Json :=
  (ms.filter wfMsg).enum.map (fun p =>
    Json.obj [
      ("id", Json.str ((strNonempty (p.2.jsGet "id")).getD ("chat-" ++ natToStr p.1))),
      ("role", roleVal p.2),
      ("content", (p.2.jsGet "content").getD Json.null)])

/-- `typeof v === 'string' ? v : dflt` on an optional property value. -/
def strOr (ov : Option Json) (dflt : String) : String :=
  match ov with
  | some (Json.str s) => s
  | _ => dflt

/-- The thread title rule (storage.js:148-150): a string title with non-blank
trim is kept trimmed, otherwise `Thread #<index+1>`. -/
def titleVal (ov : Option Json) (i : Nat) : String :=
  match ov with
  | some (Json.str s) =>
    if jsTrim s ≠ "" then jsTrim s else "Thread #" ++ natToStr (i + 1)
  | _ => "Thread #" ++ natToStr (i + 1)

/-- Keep a present non-empty string id, else generate a fresh one
(storage.js:135,152). -/
def keepOrGen (so : Option String) (pfx : String) (g : Nat → String)
    (k : Nat) : String × Nat :=
  match so with
  | some s => (s, k)
  | none => generateId pfx g k

/-- Recursion of `normalizeMessages` over the filtered messages with the map
index `i` and the id-supply counter `k` (storage.js:134-138). -/
def normMsgsGo (g : Nat → String) : List Json → Nat → Nat → List Json × Nat
  | [], _, k => ([], k)
  | m :: rest, i, k =>
    let idk := keepOrGen (strNonempty (m.jsGet "id")) ("chat-" ++ natToStr i) g k
    let msg := Json.obj [("id", Json.str idk.1), ("role", roleVal m),
      ("content", (m.jsGet "content").getD Json.null)]
    let rec_ := normMsgsGo g rest (i + 1) idk.2
    (msg :: rec_.1, rec_.2)

/-- `normalizeMessages(messages)` (storage.js:130-139): non-arrays become
empty, messages without string content are dropped, missing ids are freshly
generated. -/
def normalizeMessages (g : Nat → String) (mv : Option Json) (k : Nat) :
    List Json × Nat :=
  normMsgsGo g ((arrOrNil mv).filter wfMsg) 0 k

/-- One thread of `normalizeChatThreads` (storage.js:145-158), at position
`i`. -/
def normThreadOne (now : String) (g : Nat → String) (t : Json) (i k : Nat) :
    Json × Nat :=
  let createdAt := strOr (t.jsGet "createdAt") now
  let updatedAt := strOr (t.jsGet "updatedAt") createdAt
  let title := titleVal (t.jsGet "title") i
  let idk := keepOrGen (strNonempty (t.jsGet "id")) "thread" g k
  let msgs := normalizeMessages g (t.jsGet "messages") idk.2
  (Json.obj [("id", Json.str idk.1), ("title", Json.str title),
    ("messages", Json.arr msgs.1), ("createdAt", Json.str createdAt),
    ("updatedAt", Json.str updatedAt)], msgs.2)

/-- The indexed map over threads (storage.js:144-158). -/
def normThreadsGo (now : String) (g : Nat → String) :
    List Json → Nat → Nat → List Json × Nat
  | [], _, k => ([], k)
  | t :: rest, i, k =>
    let one := normThreadOne now g t i k
    let rec_ := normThreadsGo now g rest (i + 1) one.2
    (one.1 :: rec_.1, rec_.2)

/-- storage.js:159: `.filter((thread) => thread && Array.isArray(thread.messages))`. -/
def threadKeep (t : Json) : Bool :=
  t.truthy && (match t.jsGet "messages" with
    | some (Json.arr _) => true
    | _ => false)

/-- `normalizeChatThreads(project)` (storage.js:141-177) acting on the
project's field list: reshape the threads, fall back to a single synthesized
thread built from the flat `chatHistory` when no thread survives, store the
result under `chatThreads` and delete `chatHistory`. -/
def normalizeChatThreads (now : String) (g : Nat → String)
    (fs : List (String × Json)) (k : Nat) : List (String × Json) × Nat :=
  let threads := arrOrNil (getF fs "chatThreads")
  let mapped := normThreadsGo now g threads 0 k
  let normalizedThreads := mapped.1.filter threadKeep
  let final : List Json × Nat :=
    if normalizedThreads.isEmpty then
      let fb := normalizeMessages g (getF fs "chatHistory") mapped.2
      if fb.1.isEmpty then (normalizedThreads, fb.2)
      else
        let tid := generateId "thread" g fb.2
        (normalizedThreads ++ [Json.obj [("id", Json.str tid.1),
          ("title", Json.str "Thread #1"), ("messages", Json.arr fb.1),
          ("createdAt", Json.str now), ("updatedAt", Json.str now)]], tid.2)
    else (normalizedThreads, mapped.2)
  (delF (setF fs "chatThreads" (Json.arr final.1)) "chatHistory", final.2)

/-- storage.js:105-112 and 120-127: replace a truthy object-typed `llm`
property by a copy without its `apiKey` field, deleting `llm` entirely when
nothing else remains. -/
def stripLlmField (fs : List (String × Json)) : List (String × Json) :=
  match getF fs "llm" with
  | some lv =>
    if lv.truthy && typeofObject lv then
      let rest := delF (spreadFields lv) "apiKey"
      if rest.isEmpty then delF fs "llm" else setF fs "llm" (Json.obj rest)
    else fs
  | none => fs

/-- `stripSensitiveSettings(project)` (storage.js:98-128) on the project's
field list: scrub `settings.llm.apiKey` (dropping empty `settings`/`llm`
objects) and the top-level `llm.apiKey`. -/
def stripSensitive (fs : List (String × Json)) : List (String × Json) :=
  let fs1 := match getF fs "settings" with
    | some sv =>
      if sv.truthy && typeofObject sv then
        let s2 := stripLlmField (spreadFields sv)
        if s2.isEmpty then delF fs "settings" else setF fs "settings" (Json.obj s2)
      else fs
    | none => fs
  stripLlmField fs1

/-- `typeof x === 'string'` guard used for the scalar fields: keep a string,
otherwise overwrite with the default. -/
def ensureStr (fs : List (String × Json)) (key : String) (dflt : String) :
    List (String × Json) :=
  match getF fs key with
  | some (Json.str _) => fs
  | _ => setF fs key (Json.str dflt)

/-- `typeof result.owner !== 'string' || !result.owner` (storage.js:79-81):
the owner must be a non-empty string, else "local". -/
def ensureOwner (fs : List (String × Json)) : List (String × Json) :=
  match getF fs "owner" with
  | some (Json.str s) => if s = "" then setF fs "owner" (Json.str "local") else fs
  | _ => setF fs "owner" (Json.str "local")

/-- storage.js:68-95, the straight-line tail of `ensureProjectShape` after
the lemma repair: flat `chatHistory` pass, scalar defaults, chat-thread
consolidation and credential strip. -/
def shapeTail (now : String) (g : Nat → String) (fs2 : List (String × Json))
    (k : Nat) : Json × Nat :=
  let fs3 := setF fs2 "chatHistory"
    (Json.arr (normChatHistory (arrOrNil (getF fs2 "chatHistory"))))
  let fs4 := ensureStr fs3 "abstract" ""
  let fs5 := ensureOwner fs4
  let fs6 := ensureStr fs5 "title" "Untitled"
  let fs7 := ensureStr fs6 "createdAt" now
  let fs8 := ensureStr fs7 "updatedAt" now
  let fs9 := normalizeChatThreads now g fs8 k
  (Json.obj (stripSensitive fs9.1), fs9.2)

/-- `ensureProjectShape(project)` (storage.js:42-95), the normalizer: copy
the input (`{...project}`), force the collection keys to arrays, repair
lemma `proof` fields (throwing on `null` lemmas), then run the straight-line
tail.  `now` stands for the `isoNow()` reads, `g`/`k` for the
`crypto.randomUUID` supply and its call counter. -/
def ensureProjectShape (now : String) (g : Nat → String) (project : Json)
    (k : Nat) : Except Unit (Json × Nat) := do
  let fs1 := ensureArrays (spreadFields project)
  let fs2 ←
    match getF fs1 "lemmas" with
    | some (Json.arr ls) => do
      let ls' ← ls.mapM fixLemma
      pure (setF fs1 "lemmas" (Json.arr ls'))
    | _ => pure fs1
  pure (shapeTail now g fs2 k)

/-- The per-project file store (single storage root, the constructor's
default): project id → the parsed document currently on disk.  The SHA-256
etag over the serialized bytes (`computeEtag`, storage.js:179-181) is
abstracted as a parameter `etagOf` over the stored document. -/
def Store : Type := String → Option Json

/-- Failures of the storage service (`err.code` values). -/
inductive StoreErr : Type where
  | notFound : StoreErr
  | alreadyExists : StoreErr
  | internal : StoreErr
deriving DecidableEq, Repr

/-- Failures surfaced by the `project:save` IPC handler. -/
inductive SaveErr : Type where
  | badRequest : SaveErr
  | notFound : SaveErr
  | preconditionFailed : SaveErr
  | internal : SaveErr
deriving DecidableEq, Repr

/-- `StorageService.readProject` (storage.js:237-249): resolve the file, hash
the raw bytes before parsing, then normalize.  The result carries the store
unchanged — the read path contains no write. -/
def readProject (etagOf : Json → String) (now : String) (g : Nat → String)
    (st : Store) (pid : String) (k : Nat) :
    Except StoreErr (Json × String) × Store × Nat :=
  match st pid with
  | none => (.error .notFound, st, k)
  | some raw =>
    match ensureProjectShape now g raw k with
    | .error _ => (.error .internal, st, k)
    | .ok p => (.ok (p.1, etagOf raw), st, p.2)

/-- `StorageService.writeProject` (storage.js:251-260): normalize a copy of
the document, strip credentials once more, atomically replace the file under
the project's id and return the etag of the newly written bytes.  A throwing
normalization (or a non-string id, which would break the path join) is the
error case. -/
def writeProject (etagOf : Json → String) (now : String) (g : Nat → String)
    (st : Store) (project : Json) (k : Nat) :
    Except Unit String × Store × Nat :=
  match ensureProjectShape now g (Json.obj (spreadFields project)) k with
  | .error _ => (.error (), st, k)
  | .ok p =>
    let doc := match p.1 with
      | Json.obj nfs => Json.obj (stripSensitive nfs)
      | v => v
    match project.jsGet "id" with
    | some (Json.str pid) =>
      (.ok (etagOf doc), fun i => if i = pid then some doc else st i, p.2)
    | _ => (.error (), st, p.2)

/-- `StorageService.createProject` (storage.js:226-235): refuse an existing
id, then write the freshly constructed default document; the raw default
document is returned together with the etag of what was written. -/
def createProject (etagOf : Json → String) (now : String) (g : Nat → String)
    (st : Store) (pid : String) (title : String) (k : Nat) :
    Except StoreErr (Json × String) × Store × Nat :=
  if (st pid).isSome then (.error .alreadyExists, st, k)
  else
    match writeProject etagOf now g st (defaultProject pid title now) k with
    | (.error _, st', k') => (.error .internal, st', k')
    | (.ok etag, st', k') => (.ok (defaultProject pid title now, etag), st', k')

/-- The tail of the `project:save` handler after the re-read: the etag
comparison (part_007:139-141) followed by the overriding write
(part_007:142-148). -/
def saveAfterRead (etagOf : Json → String) (nowS nowW : String)
    (g : Nat → String) (st' : Store) (project : Json) (etag : String)
    (existing : Json) (currentEtag : String) (k1 : Nat) :
    Except SaveErr String × Store × Nat :=
  if etag ≠ currentEtag then (.error .preconditionFailed, st', k1)
  else
    let updated := Json.obj (setF (setF (spreadFields project)
      "createdAt" ((existing.jsGet "createdAt").getD Json.null))
      "updatedAt" (Json.str nowS))
    match writeProject etagOf nowW g st' updated k1 with
    | (.error _, st'', k2) => (.error .internal, st'', k2)
    | (.ok newEtag, st'', k2) => (.ok newEtag, st'', k2)

/-- The `project:save` IPC handler (part_007:128-158): validate the payload,
re-read and re-hash the stored document via `readProject`, then run
`saveAfterRead`.  `nowR` is the clock during the read-side normalization,
`nowS` the freshly stamped `updatedAt`, `nowW` the clock during the
write-side normalization. -/
def saveProject (etagOf : Json → String) (nowR nowS nowW : String)
    (g : Nat → String) (st : Store) (project : Json) (etag : String)
    (k : Nat) : Except SaveErr String × Store × Nat :=
  match project.jsGet "id" with
  | some (Json.str pid) =>
    if etag = "" then (.error .badRequest, st, k)
    else
      match readProject etagOf nowR g st pid k with
      | (.error StoreErr.notFound, st', k1) => (.error .notFound, st', k1)
      | (.error _, st', k1) => (.error .internal, st', k1)
      | (.ok (existing, currentEtag), st', k1) =>
        saveAfterRead etagOf nowS nowW g st' project etag existing currentEtag k1
  | _ => (.error .badRequest, st, k)

/-- `DEFAULT_THEOREM_DEFS` (latex.js:3-6). -/
def defaultTheoremDefs : String :=
  "\\newtheorem\x7btheorem\x7d\x7bTheorem\x7d\n\\newtheorem\x7blemma\x7d\x7bLemma\x7d"

/-- `x.title || x.id || ''` interpolated: the first truthy of the two
properties, stringified, else empty. -/
def titleOrId (x : Json) : String :=
  match x.jsGet "title" with
  | some v =>
    if v.truthy then toJsString v
    else match x.jsGet "id" with
      | some w => if w.truthy then toJsString w else ""
      | none => ""
  | none =>
    match x.jsGet "id" with
    | some w => if w.truthy then toJsString w else ""
    | none => ""

/-- `project.<key> ?? []` iterated by `for..of`: the array's elements.
(Iterating a non-array, non-nullish value would throw in JS; the transform is
only applied to normalized documents, where these keys are arrays.) -/
def collOf (project : Json) (key : String) : List Json :=
  match project.jsGet key with
  | some (Json.arr xs) => xs
  | _ => []

/-- `renderMainTex(project)` (latex.js:8-38). -/
def renderMainTex (project : Json) : String :=
  let lset : Json := match (project.jsGet "settings").bind (fun sv => sv.jsGet "latex") with
    | some v => if v = Json.null then Json.obj [] else v
    | none => Json.obj []
  let documentClass := match lset.jsGet "documentClass" with
    | some v => if v.truthy then toJsString v else "article"
    | none => "article"
  let packages : List Json := match lset.jsGet "packages" with
    | some (Json.arr xs) => xs
    | _ => [Json.str "amsmath", Json.str "amsthm", Json.str "amssymb"]
  let preambleParts : List String := (match lset.jsGet "preamble" with
    | some (Json.str p) => if (jsTrim p).length > 0 then [jsTrim p] else []
    | _ => []) ++ [defaultTheoremDefs]
  let preamble := String.intercalate "\n" (preambleParts.filter (fun s => s ≠ ""))
  let packagesLines := String.intercalate "\n"
    (packages.map (fun pkg => "\\usepackage\x7b" ++ toJsString pkg ++ "\x7d"))
  String.intercalate "\n" [
    "\\documentclass\x7b" ++ documentClass ++ "\x7d",
    packagesLines,
    preamble,
    "\\begin\x7bdocument\x7d",
    "\\title\x7b" ++ orEmpty (project.jsGet "title") ++ "\x7d",
    "\\author\x7b" ++ orEmpty (project.jsGet "owner") ++ "\x7d",
    "\\maketitle",
    "\\begin\x7babstract\x7d",
    (match project.jsGet "abstract" with
     | some v => if v.truthy then toJsString v else "TODO: Fill abstract"
     | none => "TODO: Fill abstract"),
    "\\end\x7babstract\x7d",
    "\\tableofcontents",
    "\\input\x7bnotation.tex\x7d",
    "\\input\x7bfacts.tex\x7d",
    "\\input\x7blemmas.tex\x7d",
    "\\input\x7bconjectures.tex\x7d",
    "\\end\x7bdocument\x7d",
    ""]

/-- `renderNotationTex(project)` (latex.js:40-52). -/
def renderNotationTex (project : Json) : String :=
  let lines := ["% Notation"] ++ (collOf project "notation").map (fun item =>
    jsTrim ("\\paragraph\x7b" ++ orEmpty (item.jsGet "symbol") ++ "\x7d " ++
      orEmpty (item.jsGet "description")))
  let lines := if lines.length = 1 then lines ++ ["% No notation defined yet."] else lines
  String.intercalate "\n" (lines ++ [""])

/-- `renderFactsTex(project)` (latex.js:54-66). -/
def renderFactsTex (project : Json) : String :=
  let lines := ["% Facts"] ++ ((collOf project "facts").map (fun fact =>
    ["\\begin\x7btheorem\x7d[" ++ titleOrId fact ++ "]\\label\x7bfact:" ++
       interpOpt (fact.jsGet "id") ++ "\x7d",
     orEmpty (fact.jsGet "statementTex"),
     "\\end\x7btheorem\x7d"])).flatten
  let lines := if lines.length = 1 then lines ++ ["% No facts defined yet."] else lines
  String.intercalate "\n" (lines ++ [""])

/-- `renderLemmasTex(project)` (latex.js:68-84). -/
def renderLemmasTex (project : Json) : String :=
  let lines := ["% Lemmas"] ++ ((collOf project "lemmas").map (fun l =>
    ["\\begin\x7blemma\x7d[" ++ titleOrId l ++ "]\\label\x7blemma:" ++
       interpOpt (l.jsGet "id") ++ "\x7d",
     orEmpty (l.jsGet "statementTex"),
     "\\end\x7blemma\x7d"] ++
    (match l.jsGet "dependsOn" with
     | some (Json.arr deps) =>
       if deps.length > 0 then
         ["\\paragraph\x7bDepends on\x7d " ++ String.intercalate ", "
           (deps.map (fun dep => "\\ref\x7bfact:" ++ toJsString dep ++ "\x7d"))]
       else []
     | _ => []))).flatten
  let lines := if lines.length = 1 then lines ++ ["% No lemmas defined yet."] else lines
  String.intercalate "\n" (lines ++ [""])

/-- `renderConjecturesTex(project)` (latex.js:86-101). -/
def renderConjecturesTex (project : Json) : String :=
  let lines := ["% Conjectures"] ++ ((collOf project "conjectures").map (fun conj =>
    ["\\section*\x7b" ++ titleOrId conj ++ "\x7d",
     orEmpty (conj.jsGet "statementTex")] ++
    (match conj.jsGet "evidence" with
     | some ev => if ev.truthy then ["\\paragraph\x7bEvidence\x7d", toJsString ev] else []
     | none => []))).flatten
  let lines := if lines.length = 1 then lines ++ ["% No conjectures defined yet."] else lines
  String.intercalate "\n" (lines ++ [""])

/-- The five named fragments placed into the zip (latex.js:104-109), in
order.  `zip.file(name, text)` is called without a `date` option, so JSZip
records the current date in each entry; the five synchronous calls of one
invocation are stamped with the invocation instant `now`, carried in each
entry as (name, date, text). -/
def bundleEntries (now : String) (project : Json) :
    List (String × String × String) :=
  [("main.tex", now, renderMainTex project),
   ("notation.tex", now, renderNotationTex project),
   ("facts.tex", now, renderFactsTex project),
   ("lemmas.tex", now, renderLemmasTex project),
   ("conjectures.tex", now, renderConjecturesTex project)]

/-- `buildLatexBundle(project)` (latex.js:103-112): the archive bytes and the
`<id>_latex_bundle.zip` filename.  The serializer of JSZip's `generateAsync`
(DEFLATE) is abstracted as the parameter `zipGen` mapping the dated named
fragment entries to the archive bytes; the entry dates reach the bytes
through the zip local file headers and central directory. -/
def buildLatexBundle (zipGen : List (String × String × String) → List Nat)
    (now : String) (project : Json) : List Nat × String :=
  (zipGen (bundleEntries now project),
   interpOpt (project.jsGet "id") ++ "_latex_bundle.zip")

/-- A concrete archiver that, like JSZip, serializes the per-entry date
stamps into the output bytes. -/
def dateStampBytes : List (String × String × String) → List Nat :=
  fun es => es.map (fun e => e.2.1.length)

/-! ### Concrete documents used by the claims and their witnesses -/

/-- The normalizer's output on the empty object `\x7b\x7d`. -/
def normEmptyDoc (now : String) : Json :=
  Json.obj [("notation", Json.arr []), ("definitions", Json.arr []),
    ("facts", Json.arr []), ("lemmas", Json.arr []),
    ("conjectures", Json.arr []), ("ideas", Json.arr []),
    ("pitfalls", Json.arr []), ("attempts", Json.arr []),
    ("attachments", Json.arr []), ("abstract", Json.str ""),
    ("owner", Json.str "local"), ("title", Json.str "Untitled"),
    ("createdAt", Json.str now), ("updatedAt", Json.str now),
    ("chatThreads", Json.arr [])]

/-- The normalizer's output on the object `\x7b"extra":"keepme"\x7d`: the
unknown field survives untouched ahead of the repaired defaults. -/
def normEmptyExtra : Json :=
  Json.obj [("extra", Json.str "keepme"),
    ("notation", Json.arr []), ("definitions", Json.arr []),
    ("facts", Json.arr []), ("lemmas", Json.arr []),
    ("conjectures", Json.arr []), ("ideas", Json.arr []),
    ("pitfalls", Json.arr []), ("attempts", Json.arr []),
    ("attachments", Json.arr []), ("abstract", Json.str ""),
    ("owner", Json.str "local"), ("title", Json.str "Untitled"),
    ("createdAt", Json.str "T"), ("updatedAt", Json.str "T"),
    ("chatThreads", Json.arr [])]

/-- The top-level keys the normalizer may touch: the forced collection
arrays, the consolidated chat fields, the defaulted scalars and the
credential-bearing objects. -/
def repairedKeys : List String :=
  arrayKeys ++ ["chatThreads", "title", "abstract", "owner", "createdAt",
    "updatedAt", "settings", "llm"]

/-- The field list of `defaultProject`, spelled out. -/
def dfltFs (pid title now : String) : List (String × Json) :=
  [("id", Json.str pid),
    ("title", Json.str (if title = "" then "Untitled" else title)),
    ("abstract", Json.str ""), ("owner", Json.str "local"),
    ("createdAt", Json.str now), ("updatedAt", Json.str now),
    ("notation", Json.arr []), ("definitions", Json.arr []),
    ("facts", Json.arr []), ("lemmas", Json.arr []),
    ("conjectures", Json.arr []), ("ideas", Json.arr []),
    ("pitfalls", Json.arr []), ("chatHistory", Json.arr []),
    ("chatThreads", Json.arr []), ("attempts", Json.arr []),
    ("attachments", Json.arr [])]

/-- The field list of the default document after normalization: the legacy
`chatHistory` entry is gone, everything else is unchanged. -/
def normalFs (pid title now : String) : List (String × Json) :=
  [("id", Json.str pid),
    ("title", Json.str (if title = "" then "Untitled" else title)),
    ("abstract", Json.str ""), ("owner", Json.str "local"),
    ("createdAt", Json.str now), ("updatedAt", Json.str now),
    ("notation", Json.arr []), ("definitions", Json.arr []),
    ("facts", Json.arr []), ("lemmas", Json.arr []),
    ("conjectures", Json.arr []), ("ideas", Json.arr []),
    ("pitfalls", Json.arr []), ("chatThreads", Json.arr []),
    ("attempts", Json.arr []), ("attachments", Json.arr [])]

/-- The document actually written to disk by `createProject`: the normalized
default document. -/
def normalDefault (pid title now : String) : Json :=
  Json.obj (normalFs pid title now)

/-- The normalized form of a document holding only a two-message legacy
`chatHistory` (clock "T", uuid supply `un`). -/
def legacyMigratedDoc : Json :=
  Json.obj [("notation", Json.arr []), ("definitions", Json.arr []),
    ("facts", Json.arr []), ("lemmas", Json.arr []),
    ("conjectures", Json.arr []), ("ideas", Json.arr []),
    ("pitfalls", Json.arr []), ("attempts", Json.arr []),
    ("attachments", Json.arr []), ("abstract", Json.str ""),
    ("owner", Json.str "local"), ("title", Json.str "Untitled"),
    ("createdAt", Json.str "T"), ("updatedAt", Json.str "T"),
    ("chatThreads", Json.arr [Json.obj
      [("id", Json.str "thread-u0"), ("title", Json.str "Thread #1"),
       ("messages", Json.arr
         [Json.obj [("id", Json.str "a"), ("role", Json.str "assistant"),
            ("content", Json.str "x")],
          Json.obj [("id", Json.str "b"), ("role", Json.str "user"),
            ("content", Json.str "y")]]),
       ("createdAt", Json.str "T"), ("updatedAt", Json.str "T")]])]

/-- The document stored after the witness save: payload `id`/fields with the
preserved `createdAt` "T", the stamped `updatedAt` "S" and the repaired
defaults. -/
def storedAfterSave : List (String × Json) :=
  [("id", Json.str "p1"), ("createdAt", Json.str "T"),
   ("updatedAt", Json.str "S"), ("notation", Json.arr []),
   ("definitions", Json.arr []), ("facts", Json.arr []),
   ("lemmas", Json.arr []), ("conjectures", Json.arr []),
   ("ideas", Json.arr []), ("pitfalls", Json.arr []),
   ("attempts", Json.arr []), ("attachments", Json.arr []),
   ("abstract", Json.str ""), ("owner", Json.str "local"),
   ("title", Json.str "Untitled"), ("chatThreads", Json.arr [])]

/-! ### Association-list lemmas -/

namespace Json

theorem getF_setF_self (fs : List (String × Json)) (k : String) (v : Json) :
    getF (setF fs k v) k = some v := by
  induction fs with
  | nil => simp [getF, setF]
  | cons p rest ih =>
    obtain ⟨key, val⟩ := p
    by_cases h : key = k <;> simp [getF, setF, h, ih]

theorem getF_setF_ne (fs : List (String × Json)) (k k' : String) (v : Json)
    (h : k' ≠ k) : getF (setF fs k v) k' = getF fs k' := by
  induction fs with
  | nil => simp [getF, setF, Ne.symm h]
  | cons p rest ih =>
    obtain ⟨key, val⟩ := p
    by_cases hk : key = k
    · subst hk; simp [getF, setF, Ne.symm h]
    · by_cases hk' : key = k' <;> simp [getF, setF, hk, hk', h, ih]

theorem setF_self (fs : List (String × Json)) (k : String) (v : Json)
    (h : getF fs k = some v) : setF fs k v = fs := by
  induction fs with
  | nil => simp [getF] at h
  | cons p rest ih =>
    obtain ⟨key, val⟩ := p
    by_cases hk : key = k
    · subst hk
      simp [getF] at h
      simp [setF, h]
    · simp [getF, hk] at h
      simp [setF, hk, ih h]

theorem getF_delF_self (fs : List (String × Json)) (k : String) :
    getF (delF fs k) k = none := by
  induction fs with
  | nil => simp [getF, delF]
  | cons p rest ih =>
    obtain ⟨key, val⟩ := p
    by_cases h : key = k <;>
      (simp [getF, delF, h]; simpa [delF] using ih)

theorem getF_delF_ne (fs : List (String × Json)) (k k' : String)
    (h : k' ≠ k) : getF (delF fs k) k' = getF fs k' := by
  induction fs with
  | nil => simp [getF, delF]
  | cons p rest ih =>
    obtain ⟨key, val⟩ := p
    by_cases hk : key = k
    · subst hk
      simp [delF, getF, Ne.symm h]
      simpa [delF] using ih
    · by_cases hk' : key = k'
      · subst hk'
        simp [delF, getF, hk, h]
      · simp [delF, getF, hk, hk']
        simpa [delF] using ih

theorem delF_of_getF_none (fs : List (String × Json)) (k : String)
    (h : getF fs k = none) : delF fs k = fs := by
  induction fs with
  | nil => simp [delF]
  | cons p rest ih =>
    obtain ⟨key, val⟩ := p
    by_cases hk : key = k
    · simp [getF, hk] at h
    · simp [getF, hk] at h
      simp [delF, hk]
      simpa [delF] using ih h

theorem delF_append (fs gs : List (String × Json)) (k : String) :
    delF (fs ++ gs) k = delF fs k ++ delF gs k := by
  simp [delF, List.filter_append]

theorem setF_of_getF_none (fs : List (String × Json)) (k : String) (v : Json)
    (h : getF fs k = none) : setF fs k v = fs ++ [(k, v)] := by
  induction fs with
  | nil => simp [setF]
  | cons p rest ih =>
    obtain ⟨key, val⟩ := p
    by_cases hk : key = k
    · simp [getF, hk] at h
    · simp [getF, hk] at h
      simp [setF, hk, ih h]

theorem getF_append_of_some (fs gs : List (String × Json)) (k : String)
    (v : Json) (h : getF fs k = some v) : getF (fs ++ gs) k = some v := by
  induction fs with
  | nil => simp [getF] at h
  | cons p rest ih =>
    obtain ⟨key, val⟩ := p
    by_cases hk : key = k <;> simp [getF, hk] at h ⊢ <;> simp_all [ih]

theorem getF_append_of_none (fs gs : List (String × Json)) (k : String)
    (h : getF fs k = none) : getF (fs ++ gs) k = getF gs k := by
  induction fs with
  | nil => simp
  | cons p rest ih =>
    obtain ⟨key, val⟩ := p
    by_cases hk : key = k
    · simp [getF, hk] at h
    · simp [getF, hk] at h ⊢
      simp_all [ih]

end Json

/-! ### String, trim and decimal-digit lemmas -/

theorem append_ne_empty_of_right (a b : String) (h : b ≠ "") : a ++ b ≠ "" := by
  intro hc
  apply h
  have hd : a.data ++ b.data = [] := by
    have := congrArg String.data hc
    simpa [String.data_append] using this
  have hb : b.data = [] := (List.append_eq_nil.mp hd).2
  cases b with
  | mk d =>
    simp at hb
    subst hb
    rfl

theorem head?_dropWhile_not (p : Char → Bool) (l : List Char) :
    ∀ c, (l.dropWhile p).head? = some c → p c = false := by
  induction l with
  | nil => simp [List.dropWhile]
  | cons a t ih =>
    intro c hc
    by_cases h : p a
    · rw [List.dropWhile_cons, if_pos h] at hc
      exact ih c hc
    · rw [List.dropWhile_cons, if_neg h] at hc
      simp at hc
      subst hc
      simpa using h

theorem dropWhile_eq_self_of_head (p : Char → Bool) (l : List Char)
    (hh : ∀ c, l.head? = some c → p c = false) : l.dropWhile p = l := by
  cases l with
  | nil => rfl
  | cons a t =>
    have := hh a rfl
    simp [List.dropWhile_cons, this]

theorem getLast?_dropWhile (p : Char → Bool) (l : List Char)
    (h : l.dropWhile p ≠ []) : (l.dropWhile p).getLast? = l.getLast? := by
  induction l with
  | nil => simp [List.dropWhile] at h
  | cons a t ih =>
    by_cases hp : p a
    · rw [List.dropWhile_cons, if_pos hp] at h ⊢
      have ht : t ≠ [] := by
        intro he
        subst he
        simp [List.dropWhile] at h
      rw [ih h]
      cases t with
      | nil => exact absurd rfl ht
      | cons b t' => rw [List.getLast?_cons_cons]
    · rw [List.dropWhile_cons, if_neg hp]

/-- A character list with no leading and no trailing JS whitespace. -/
def NoWsL (l : List Char) : Prop :=
  (∀ c, l.head? = some c → isJsWs c = false) ∧
  (∀ c, l.getLast? = some c → isJsWs c = false)

theorem trimL_eq_self (l : List Char) (h : NoWsL l) : trimL l = l := by
  obtain ⟨h1, h2⟩ := h
  have hr : ∀ c, l.reverse.head? = some c → isJsWs c = false := by
    intro c hc
    exact h2 c (by rwa [List.head?_reverse] at hc)
  unfold trimL
  rw [dropWhile_eq_self_of_head _ _ h1, dropWhile_eq_self_of_head _ _ hr,
    List.reverse_reverse]

theorem noWsL_trimL (l : List Char) : NoWsL (trimL l) := by
  constructor
  · intro c hc
    unfold trimL at hc
    rw [List.head?_reverse] at hc
    by_cases hB : (l.dropWhile isJsWs).reverse.dropWhile isJsWs = []
    · rw [hB] at hc
      simp at hc
    · rw [getLast?_dropWhile _ _ hB, List.getLast?_reverse] at hc
      exact head?_dropWhile_not _ _ c hc
  · intro c hc
    unfold trimL at hc
    rw [List.getLast?_reverse] at hc
    exact head?_dropWhile_not _ _ c hc

theorem trimL_idem (l : List Char) : trimL (trimL l) = trimL l :=
  trimL_eq_self _ (noWsL_trimL l)

theorem jsTrim_idem (s : String) : jsTrim (jsTrim s) = jsTrim s := by
  show (trimL ((trimL s.data).asString).data).asString = (trimL s.data).asString
  have h : ((trimL s.data).asString).data = trimL s.data := rfl
  rw [h, trimL_idem]

theorem isJsWs_digitChar (d : Nat) : isJsWs (digitChar d) = false := by
  match d with
  | 0 => decide
  | 1 => decide
  | 2 => decide
  | 3 => decide
  | 4 => decide
  | 5 => decide
  | 6 => decide
  | 7 => decide
  | 8 => decide
  | 9 => decide
  | n + 10 => rfl

theorem natToStrL_not_ws (n : Nat) : ∀ c ∈ natToStrL n, isJsWs c = false := by
  induction n using Nat.strong_induction_on with
  | _ n ih =>
    intro c hc
    by_cases h : n < 10
    · rw [natToStrL, dif_pos h] at hc
      simp at hc
      subst hc
      exact isJsWs_digitChar n
    · rw [natToStrL, dif_neg h] at hc
      rcases List.mem_append.mp hc with h1 | h2
      · exact ih (n / 10) (Nat.div_lt_self (by omega) (by omega)) c h1
      · simp at h2
        subst h2
        exact isJsWs_digitChar (n % 10)

theorem natToStrL_ne_nil (n : Nat) : natToStrL n ≠ [] := by
  rw [natToStrL]
  by_cases h : n < 10 <;> simp [h]

theorem threadTitle_data (k : Nat) :
    ("Thread #" ++ natToStr k).data = "Thread #".data ++ natToStrL k := by
  rw [String.data_append]
  rfl

theorem noWsL_threadTitle (k : Nat) : NoWsL ("Thread #" ++ natToStr k).data := by
  rw [threadTitle_data]
  constructor
  · intro c hc
    rw [List.head?_append_of_ne_nil _ (by decide)] at hc
    have hT : 'T' = c := by
      simpa [show ("Thread #".data) = 'T' :: "hread #".data from rfl] using hc
    subst hT
    decide
  · intro c hc
    rw [List.getLast?_append_of_ne_nil _ (natToStrL_ne_nil k)] at hc
    have hm : c ∈ natToStrL k := List.mem_of_mem_getLast? hc
    exact natToStrL_not_ws k c hm

theorem jsTrim_threadTitle (k : Nat) :
    jsTrim ("Thread #" ++ natToStr k) = "Thread #" ++ natToStr k := by
  show (trimL ("Thread #" ++ natToStr k).data).asString = _
  rw [trimL_eq_self _ (noWsL_threadTitle k)]
  exact String.asString_toList _

theorem threadTitle_ne_empty (k : Nat) : "Thread #" ++ natToStr k ≠ "" := by
  intro hc
  have := congrArg String.data hc
  rw [threadTitle_data] at this
  simp at this

/-! ### The normal form produced by `ensureProjectShape` -/

/-- A chat message as produced by normalization: exactly the fields `id`,
`role`, `content`, with a non-empty id and a role that is `user` or
`assistant`. -/
def NormMsg (m : Json) : Prop :=
  ∃ i r c,
    m = Json.obj [("id", Json.str i), ("role", Json.str r), ("content", Json.str c)] ∧
    i ≠ "" ∧ (r = "user" ∨ r = "assistant")

/-- A chat thread as produced by normalization: exactly the fields `id`,
`title`, `messages`, `createdAt`, `updatedAt`, with a non-empty id, a trimmed
non-blank title and normalized messages. -/
def NormThread (t : Json) : Prop :=
  ∃ i ti ms c u,
    t = Json.obj [("id", Json.str i), ("title", Json.str ti),
      ("messages", Json.arr ms), ("createdAt", Json.str c), ("updatedAt", Json.str u)] ∧
    i ≠ "" ∧ jsTrim ti = ti ∧ ti ≠ "" ∧ ∀ m ∈ ms, NormMsg m

/-- An `llm` property in post-`stripSensitiveSettings` state: absent, kept
untouched because it is not a truthy object, or a non-empty object with no
`apiKey`. -/
def LlmFixed (fs : List (String × Json)) : Prop :=
  getF fs "llm" = none ∨
  (∃ v, getF fs "llm" = some v ∧ (v.truthy && typeofObject v) = false) ∨
  (∃ lfs, getF fs "llm" = some (Json.obj lfs) ∧ lfs ≠ [] ∧ getF lfs "apiKey" = none)

/-- The field-level normal form established by `ensureProjectShape`; feeding
such a field list through the normalizer again changes nothing. -/
structure NormFields (fs : List (String × Json)) : Prop where
  chatHistoryGone : getF fs "chatHistory" = none
  notationArr : ∃ xs, getF fs "notation" = some (Json.arr xs)
  definitionsArr : ∃ xs, getF fs "definitions" = some (Json.arr xs)
  factsArr : ∃ xs, getF fs "facts" = some (Json.arr xs)
  conjecturesArr : ∃ xs, getF fs "conjectures" = some (Json.arr xs)
  ideasArr : ∃ xs, getF fs "ideas" = some (Json.arr xs)
  pitfallsArr : ∃ xs, getF fs "pitfalls" = some (Json.arr xs)
  attemptsArr : ∃ xs, getF fs "attempts" = some (Json.arr xs)
  attachmentsArr : ∃ xs, getF fs "attachments" = some (Json.arr xs)
  lemmasOk : ∃ ls, getF fs "lemmas" = some (Json.arr ls) ∧
    ∀ l ∈ ls, ∃ lfs p, l = Json.obj lfs ∧ getF lfs "proof" = some (Json.str p)
  threadsOk : ∃ ts, getF fs "chatThreads" = some (Json.arr ts) ∧ ∀ t ∈ ts, NormThread t
  abstractStr : ∃ s, getF fs "abstract" = some (Json.str s)
  ownerStr : ∃ s, getF fs "owner" = some (Json.str s) ∧ s ≠ ""
  titleStr : ∃ s, getF fs "title" = some (Json.str s)
  createdStr : ∃ s, getF fs "createdAt" = some (Json.str s)
  updatedStr : ∃ s, getF fs "updatedAt" = some (Json.str s)
  settingsOk : getF fs "settings" = none ∨
    (∃ v, getF fs "settings" = some v ∧ (v.truthy && typeofObject v) = false) ∨
    (∃ sfs, getF fs "settings" = some (Json.obj sfs) ∧ sfs ≠ [] ∧ LlmFixed sfs)
  llmOk : LlmFixed fs

/-! ### Normalized data is a fixed point of each normalization stage -/

theorem wfMsg_of_norm (m : Json) (h : NormMsg m) : wfMsg m = true := by
  obtain ⟨i, r, c, rfl, _, _⟩ := h
  simp [wfMsg, Json.truthy, Json.jsGet, Json.getF, Json.isStrOpt]

theorem normMsgsGo_fixed (g : Nat → String) (ms : List Json) (i k : Nat)
    (h : ∀ m ∈ ms, NormMsg m) : normMsgsGo g ms i k = (ms, k) := by
  induction ms generalizing i k with
  | nil => rfl
  | cons m rest ih =>
    obtain ⟨mi, mr, mc, hm, hne, hrole⟩ := h m (List.mem_cons_self m rest)
    subst hm
    have hid : strNonempty ((Json.obj [("id", Json.str mi), ("role", Json.str mr),
        ("content", Json.str mc)]).jsGet "id") = some mi := by
      simp [strNonempty, Json.jsGet, Json.getF, hne]
    have hrv : roleVal (Json.obj [("id", Json.str mi), ("role", Json.str mr),
        ("content", Json.str mc)]) = Json.str mr := by
      rcases hrole with h | h <;> subst h <;>
        simp [roleVal, Json.jsGet, Json.getF]
    have hct : (Json.obj [("id", Json.str mi), ("role", Json.str mr),
        ("content", Json.str mc)]).jsGet "content" = some (Json.str mc) := by
      simp [Json.jsGet, Json.getF]
    rw [normMsgsGo]
    simp only [hid, hrv, hct, Option.getD_some, keepOrGen,
      ih (i + 1) k (fun m hm => h m (List.mem_cons_of_mem _ hm))]

theorem normalizeMessages_fixed (g : Nat → String) (ms : List Json) (k : Nat)
    (h : ∀ m ∈ ms, NormMsg m) :
    normalizeMessages g (some (Json.arr ms)) k = (ms, k) := by
  show normMsgsGo g ((arrOrNil (some (Json.arr ms))).filter wfMsg) 0 k = (ms, k)
  rw [show arrOrNil (some (Json.arr ms)) = ms from rfl,
    List.filter_eq_self.mpr (fun m hm => wfMsg_of_norm m (h m hm))]
  exact normMsgsGo_fixed g ms 0 k h

theorem normThreadOne_fixed (now : String) (g : Nat → String) (t : Json)
    (i k : Nat) (h : NormThread t) : normThreadOne now g t i k = (t, k) := by
  obtain ⟨ti, tt, ms, tc, tu, ht, hne, htr, htne, hms⟩ := h
  subst ht
  have hid : strNonempty ((Json.obj [("id", Json.str ti), ("title", Json.str tt),
      ("messages", Json.arr ms), ("createdAt", Json.str tc),
      ("updatedAt", Json.str tu)]).jsGet "id") = some ti := by
    simp [strNonempty, Json.jsGet, Json.getF, hne]
  have hti : (Json.obj [("id", Json.str ti), ("title", Json.str tt),
      ("messages", Json.arr ms), ("createdAt", Json.str tc),
      ("updatedAt", Json.str tu)]).jsGet "title" = some (Json.str tt) := by
    simp [Json.jsGet, Json.getF]
  have hcr : (Json.obj [("id", Json.str ti), ("title", Json.str tt),
      ("messages", Json.arr ms), ("createdAt", Json.str tc),
      ("updatedAt", Json.str tu)]).jsGet "createdAt" = some (Json.str tc) := by
    simp [Json.jsGet, Json.getF]
  have hup : (Json.obj [("id", Json.str ti), ("title", Json.str tt),
      ("messages", Json.arr ms), ("createdAt", Json.str tc),
      ("updatedAt", Json.str tu)]).jsGet "updatedAt" = some (Json.str tu) := by
    simp [Json.jsGet, Json.getF]
  have hmsg : (Json.obj [("id", Json.str ti), ("title", Json.str tt),
      ("messages", Json.arr ms), ("createdAt", Json.str tc),
      ("updatedAt", Json.str tu)]).jsGet "messages" = some (Json.arr ms) := by
    simp [Json.jsGet, Json.getF]
  unfold normThreadOne
  simp only [hid, hti, hcr, hup, hmsg, keepOrGen, strOr, titleVal,
    normalizeMessages_fixed g ms k hms, htr, htne]
  simp [htne]

theorem normThreadsGo_fixed (now : String) (g : Nat → String) (ts : List Json)
    (i k : Nat) (h : ∀ t ∈ ts, NormThread t) :
    normThreadsGo now g ts i k = (ts, k) := by
  induction ts generalizing i k with
  | nil => rfl
  | cons t rest ih =>
    rw [normThreadsGo, normThreadOne_fixed now g t i k (h t (List.mem_cons_self t rest)),
      ih (i + 1) k (fun x hx => h x (List.mem_cons_of_mem _ hx))]

theorem threadKeep_of_norm (t : Json) (h : NormThread t) : threadKeep t = true := by
  obtain ⟨ti, tt, ms, tc, tu, rfl, _, _, _, _⟩ := h
  simp [threadKeep, Json.truthy, Json.jsGet, Json.getF]

theorem fixLemma_fixed (lfs : List (String × Json)) (p : String)
    (hp : getF lfs "proof" = some (Json.str p)) :
    fixLemma (Json.obj lfs) = .ok (Json.obj lfs) := by
  have h1 : (Json.obj lfs).jsGet "proof" = some (Json.str p) := hp
  unfold fixLemma
  simp only [h1]
  simp [spreadFields, setF_self lfs "proof" (Json.str p) hp]

theorem mapM_fixLemma_id (ls : List Json)
    (h : ∀ l ∈ ls, fixLemma l = .ok l) : ls.mapM fixLemma = Except.ok ls := by
  induction ls with
  | nil => rfl
  | cons a t ih =>
    rw [List.mapM_cons, h a (List.mem_cons_self a t),
      ih (fun l hl => h l (List.mem_cons_of_mem _ hl))]
    rfl

theorem ensArrStep_of_arr (acc : List (String × Json)) (key : String)
    (xs : List Json) (h : getF acc key = some (Json.arr xs)) :
    ensArrStep acc key = acc := by
  unfold ensArrStep
  rw [h]

theorem ensArrStep_of_none (acc : List (String × Json)) (key : String)
    (h : getF acc key = none) :
    ensArrStep acc key = acc ++ [(key, Json.arr [])] := by
  unfold ensArrStep
  rw [h]
  exact setF_of_getF_none _ _ _ h

theorem getF_ensArrStep_ne (acc : List (String × Json)) (key0 key : String)
    (h : key ≠ key0) : getF (ensArrStep acc key0) key = getF acc key := by
  unfold ensArrStep
  cases hget : getF acc key0 with
  | none => simpa using getF_setF_ne acc key0 key (Json.arr []) h
  | some v =>
    cases v <;> simp <;> exact getF_setF_ne acc key0 key (Json.arr []) h

theorem getF_foldl_ensArr_notin (ks : List String) (fs : List (String × Json))
    (key : String) (h : key ∉ ks) :
    getF (List.foldl ensArrStep fs ks) key = getF fs key := by
  induction ks generalizing fs with
  | nil => rfl
  | cons a t ih =>
    rw [List.foldl_cons, ih _ (fun hm => h (List.mem_cons_of_mem _ hm)),
      getF_ensArrStep_ne _ _ _
        (fun he => h (by rw [he]; exact List.mem_cons_self a t))]

theorem ensureArrays_of_norm (fs : List (String × Json)) (h : NormFields fs) :
    ensureArrays fs = fs ++ [("chatHistory", Json.arr [])] := by
  obtain ⟨x1, h1⟩ := h.notationArr
  obtain ⟨x2, h2⟩ := h.definitionsArr
  obtain ⟨x3, h3⟩ := h.factsArr
  obtain ⟨ls, hL, _⟩ := h.lemmasOk
  obtain ⟨x5, h5⟩ := h.conjecturesArr
  obtain ⟨x6, h6⟩ := h.ideasArr
  obtain ⟨x7, h7⟩ := h.pitfallsArr
  obtain ⟨x8, h8⟩ := h.attemptsArr
  obtain ⟨x9, h9⟩ := h.attachmentsArr
  show List.foldl ensArrStep fs arrayKeys = _
  simp only [arrayKeys, List.foldl_cons, List.foldl_nil]
  rw [ensArrStep_of_arr _ _ _ h1, ensArrStep_of_arr _ _ _ h2,
    ensArrStep_of_arr _ _ _ h3, ensArrStep_of_arr _ _ _ hL,
    ensArrStep_of_arr _ _ _ h5, ensArrStep_of_arr _ _ _ h6,
    ensArrStep_of_arr _ _ _ h7, ensArrStep_of_none _ _ h.chatHistoryGone,
    ensArrStep_of_arr _ _ _ (getF_append_of_some _ _ _ _ h8),
    ensArrStep_of_arr _ _ _ (getF_append_of_some _ _ _ _ h9)]

theorem stripLlmField_of_fixed (fs : List (String × Json)) (h : LlmFixed fs) :
    stripLlmField fs = fs := by
  unfold stripLlmField
  rcases h with h | ⟨v, hv, hc⟩ | ⟨lfs, hl, hne, hapi⟩
  · rw [h]
  · rw [hv]
    dsimp only
    rw [hc]
    simp
  · rw [hl]
    dsimp only
    rw [show ((Json.obj lfs).truthy && (Json.obj lfs).typeofObject) = true from rfl]
    have hrest : delF (spreadFields (Json.obj lfs)) "apiKey" = lfs :=
      delF_of_getF_none _ _ hapi
    have hie : lfs.isEmpty = false := by
      cases lfs with
      | nil => exact absurd rfl hne
      | cons q qs => rfl
    simp [hrest, hie, setF_self _ _ _ hl]

theorem getF_stripLlmField_ne (fs : List (String × Json)) (key : String)
    (h : key ≠ "llm") : getF (stripLlmField fs) key = getF fs key := by
  unfold stripLlmField
  cases hget : getF fs "llm" with
  | none => rfl
  | some lv =>
    show getF (if (lv.truthy && lv.typeofObject) = true then
        (let rest := delF lv.spreadFields "apiKey";
         if rest.isEmpty = true then delF fs "llm" else setF fs "llm" (Json.obj rest))
      else fs) key = getF fs key
    by_cases hc : (lv.truthy && lv.typeofObject) = true
    · rw [hc]
      simp only [if_true]
      by_cases hr : (delF (spreadFields lv) "apiKey").isEmpty
      · simp only [hr, if_true]
        exact getF_delF_ne _ _ _ h
      · simp only [show (delF (spreadFields lv) "apiKey").isEmpty = false from
          Bool.eq_false_iff.mpr hr, Bool.false_eq_true, if_false]
        exact getF_setF_ne _ _ _ _ h
    · rw [Bool.eq_false_iff.mpr hc]
      simp

theorem getF_stripSensitive_ne (fs : List (String × Json)) (key : String)
    (h1 : key ≠ "llm") (h2 : key ≠ "settings") :
    getF (stripSensitive fs) key = getF fs key := by
  unfold stripSensitive
  rw [getF_stripLlmField_ne _ _ h1]
  cases hget : getF fs "settings" with
  | none => rfl
  | some sv =>
    show getF (if (sv.truthy && sv.typeofObject) = true then
        (let s2 := stripLlmField sv.spreadFields;
         if s2.isEmpty = true then delF fs "settings"
         else setF fs "settings" (Json.obj s2))
      else fs) key = getF fs key
    by_cases hc : (sv.truthy && sv.typeofObject) = true
    · rw [hc]
      simp only [if_true]
      by_cases hr : (stripLlmField (spreadFields sv)).isEmpty
      · simp only [hr, if_true]
        exact getF_delF_ne _ _ _ h2
      · simp only [show (stripLlmField (spreadFields sv)).isEmpty = false from
          Bool.eq_false_iff.mpr hr, Bool.false_eq_true, if_false]
        exact getF_setF_ne _ _ _ _ h2
    · rw [Bool.eq_false_iff.mpr hc]
      simp

theorem stripSensitive_of_norm (fs : List (String × Json))
    (hset : getF fs "settings" = none ∨
      (∃ v, getF fs "settings" = some v ∧ (v.truthy && typeofObject v) = false) ∨
      (∃ sfs, getF fs "settings" = some (Json.obj sfs) ∧ sfs ≠ [] ∧ LlmFixed sfs))
    (hllm : LlmFixed fs) : stripSensitive fs = fs := by
  unfold stripSensitive
  rcases hset with h | ⟨v, hv, hc⟩ | ⟨sfs, hs, hne, hfix⟩
  · rw [h]
    show stripLlmField fs = fs
    exact stripLlmField_of_fixed fs hllm
  · rw [hv]
    show stripLlmField (if (v.truthy && v.typeofObject) = true then
        (let s2 := stripLlmField v.spreadFields;
         if s2.isEmpty = true then delF fs "settings"
         else setF fs "settings" (Json.obj s2))
      else fs) = fs
    rw [hc]
    simp only [Bool.false_eq_true, if_false]
    exact stripLlmField_of_fixed fs hllm
  · rw [hs]
    show stripLlmField (if ((Json.obj sfs).truthy && (Json.obj sfs).typeofObject) = true then
        (let s2 := stripLlmField (Json.obj sfs).spreadFields;
         if s2.isEmpty = true then delF fs "settings"
         else setF fs "settings" (Json.obj s2))
      else fs) = fs
    rw [show ((Json.obj sfs).truthy && (Json.obj sfs).typeofObject) = true from rfl]
    simp only [if_true]
    have hspread : spreadFields (Json.obj sfs) = sfs := rfl
    rw [hspread, stripLlmField_of_fixed sfs hfix]
    have hie : sfs.isEmpty = false := by
      cases sfs with
      | nil => exact absurd rfl hne
      | cons q qs => rfl
    simp only [hie, Bool.false_eq_true, if_false]
    rw [setF_self _ _ _ hs]
    exact stripLlmField_of_fixed fs hllm

theorem ensureStr_of_str (fs : List (String × Json)) (key dflt s : String)
    (h : getF fs key = some (Json.str s)) : ensureStr fs key dflt = fs := by
  unfold ensureStr
  rw [h]

theorem getF_ensureStr_ne (fs : List (String × Json)) (key0 dflt key : String)
    (h : key ≠ key0) : getF (ensureStr fs key0 dflt) key = getF fs key := by
  unfold ensureStr
  cases hget : getF fs key0 with
  | none => exact getF_setF_ne _ _ _ _ h
  | some v => cases v <;> first
    | rfl
    | exact getF_setF_ne _ _ _ _ h

theorem ensureOwner_of_ok (fs : List (String × Json)) (s : String)
    (h : getF fs "owner" = some (Json.str s)) (hne : s ≠ "") :
    ensureOwner fs = fs := by
  unfold ensureOwner
  rw [h]
  simp [hne]

theorem getF_ensureOwner_ne (fs : List (String × Json)) (key : String)
    (h : key ≠ "owner") : getF (ensureOwner fs) key = getF fs key := by
  unfold ensureOwner
  cases hget : getF fs "owner" with
  | none => exact getF_setF_ne _ _ _ _ h
  | some v =>
    cases v with
    | str s =>
      by_cases hs : s = ""
      · simp [hs]
        exact getF_setF_ne _ _ _ _ h
      · simp [hs]
    | null => exact getF_setF_ne _ _ _ _ h
    | bool b => exact getF_setF_ne _ _ _ _ h
    | num n => exact getF_setF_ne _ _ _ _ h
    | arr xs => exact getF_setF_ne _ _ _ _ h
    | obj o => exact getF_setF_ne _ _ _ _ h

theorem normalizeChatThreads_fixed (now : String) (g : Nat → String)
    (fs : List (String × Json)) (ts : List Json) (k : Nat)
    (hT : getF fs "chatThreads" = some (Json.arr ts))
    (hTall : ∀ t ∈ ts, NormThread t)
    (hch : getF fs "chatHistory" = some (Json.arr [])) :
    normalizeChatThreads now g fs k =
      (delF (setF fs "chatThreads" (Json.arr ts)) "chatHistory", k) := by
  unfold normalizeChatThreads
  rw [hT, hch]
  simp only [show arrOrNil (some (Json.arr ts)) = ts from rfl,
    normThreadsGo_fixed now g ts 0 k hTall,
    List.filter_eq_self.mpr (fun t ht => threadKeep_of_norm t (hTall t ht))]
  cases ts with
  | nil => rfl
  | cons a rest => rfl

/-- A field list in normal form is a fixed point of the whole normalizer,
whatever the clock and the id supply of the second run. -/
theorem ensureProjectShape_fixed (fs : List (String × Json)) (h : NormFields fs)
    (now : String) (g : Nat → String) (k : Nat) :
    ensureProjectShape now g (Json.obj fs) k = .ok (Json.obj fs, k) := by
  obtain ⟨ls, hL, hLall⟩ := h.lemmasOk
  obtain ⟨ts, hT, hTall⟩ := h.threadsOk
  obtain ⟨sAb, hAb⟩ := h.abstractStr
  obtain ⟨sOw, hOw, hOwne⟩ := h.ownerStr
  obtain ⟨sTi, hTi⟩ := h.titleStr
  obtain ⟨sCr, hCr⟩ := h.createdStr
  obtain ⟨sUp, hUp⟩ := h.updatedStr
  have hEA : ensureArrays fs = fs ++ [("chatHistory", Json.arr [])] :=
    ensureArrays_of_norm fs h
  have hgl : getF (fs ++ [("chatHistory", Json.arr [])]) "lemmas" =
      some (Json.arr ls) := getF_append_of_some _ _ _ _ hL
  have hmapM : ls.mapM fixLemma = pure ls :=
    mapM_fixLemma_id ls (fun l hl => by
      obtain ⟨lfs, p, hlp, hp⟩ := hLall l hl
      subst hlp
      exact fixLemma_fixed lfs p hp)
  have hsetL : setF (fs ++ [("chatHistory", Json.arr [])]) "lemmas"
      (Json.arr ls) = fs ++ [("chatHistory", Json.arr [])] := setF_self _ _ _ hgl
  have hgch : getF (fs ++ [("chatHistory", Json.arr [])]) "chatHistory" =
      some (Json.arr []) := by
    rw [getF_append_of_none _ _ _ h.chatHistoryGone]
    rfl
  have hsetCh : setF (fs ++ [("chatHistory", Json.arr [])]) "chatHistory"
      (Json.arr []) = fs ++ [("chatHistory", Json.arr [])] := setF_self _ _ _ hgch
  have hAb' := getF_append_of_some fs [("chatHistory", Json.arr [])] _ _ hAb
  have hOw' := getF_append_of_some fs [("chatHistory", Json.arr [])] _ _ hOw
  have hTi' := getF_append_of_some fs [("chatHistory", Json.arr [])] _ _ hTi
  have hCr' := getF_append_of_some fs [("chatHistory", Json.arr [])] _ _ hCr
  have hUp' := getF_append_of_some fs [("chatHistory", Json.arr [])] _ _ hUp
  have hT' := getF_append_of_some fs [("chatHistory", Json.arr [])] _ _ hT
  have hNCT := normalizeChatThreads_fixed now g
    (fs ++ [("chatHistory", Json.arr [])]) ts k hT' hTall hgch
  have hdel : delF (setF (fs ++ [("chatHistory", Json.arr [])]) "chatThreads"
      (Json.arr ts)) "chatHistory" = fs := by
    rw [setF_self _ _ _ hT', delF_append, delF_of_getF_none _ _ h.chatHistoryGone]
    simp [delF]
  have hstrip : stripSensitive fs = fs :=
    stripSensitive_of_norm fs h.settingsOk h.llmOk
  have hbind1 : ∀ (xs : List Json)
      (f : List Json → Except Unit (List (String × Json))),
      (Except.ok xs : Except Unit (List Json)) >>= f = f xs := fun _ _ => rfl
  have hbind2 : ∀ (xs : List (String × Json))
      (f : List (String × Json) → Except Unit (Json × Nat)),
      (Except.ok xs : Except Unit (List (String × Json))) >>= f = f xs :=
    fun _ _ => rfl
  unfold ensureProjectShape shapeTail
  simp only [show spreadFields (Json.obj fs) = fs from rfl, hEA, hgl, hmapM,
    hbind1, hbind2, pure_bind, hsetL, hgch,
    show arrOrNil (some (Json.arr [])) = [] from rfl,
    show normChatHistory [] = [] from rfl, hsetCh,
    ensureStr_of_str _ _ _ _ hAb', ensureOwner_of_ok _ _ hOw' hOwne,
    ensureStr_of_str _ _ _ _ hTi', ensureStr_of_str _ _ _ _ hCr',
    ensureStr_of_str _ _ _ _ hUp', hNCT, hdel, hstrip]
  rfl

/-! ### The normalizer establishes the normal form -/

theorem append_ne_empty_of_left (a b : String) (h : a ≠ "") : a ++ b ≠ "" := by
  intro hc
  apply h
  have hd : a.data ++ b.data = [] := by
    have := congrArg String.data hc
    simpa [String.data_append] using this
  have hb : a.data = [] := (List.append_eq_nil.mp hd).1
  cases a with
  | mk d =>
    simp at hb
    subst hb
    rfl

theorem generateId_ne_empty (pfx : String) (g : Nat → String) (k : Nat)
    (h : pfx ≠ "") : (generateId pfx g k).1 ≠ "" :=
  append_ne_empty_of_left _ _ (append_ne_empty_of_left _ _ h)

theorem ensArrStep_establishes (acc : List (String × Json)) (key : String) :
    ∃ xs, getF (ensArrStep acc key) key = some (Json.arr xs) := by
  unfold ensArrStep
  cases hget : getF acc key with
  | none => exact ⟨[], getF_setF_self _ _ _⟩
  | some v =>
    cases v with
    | arr xs => exact ⟨xs, hget⟩
    | null => exact ⟨[], getF_setF_self _ _ _⟩
    | bool b => exact ⟨[], getF_setF_self _ _ _⟩
    | num n => exact ⟨[], getF_setF_self _ _ _⟩
    | str s => exact ⟨[], getF_setF_self _ _ _⟩
    | obj o => exact ⟨[], getF_setF_self _ _ _⟩

theorem ensArrStep_preserves (acc : List (String × Json)) (key key' : String)
    (h : ∃ xs, getF acc key = some (Json.arr xs)) :
    ∃ xs, getF (ensArrStep acc key') key = some (Json.arr xs) := by
  by_cases he : key = key'
  · subst he
    obtain ⟨xs, hxs⟩ := h
    rw [ensArrStep_of_arr _ _ _ hxs]
    exact ⟨xs, hxs⟩
  · rw [getF_ensArrStep_ne _ _ _ he]
    exact h

theorem foldl_ensArr_establishes (ks : List String) (fs : List (String × Json))
    (key : String) (h : key ∈ ks ∨ ∃ xs, getF fs key = some (Json.arr xs)) :
    ∃ xs, getF (List.foldl ensArrStep fs ks) key = some (Json.arr xs) := by
  induction ks generalizing fs with
  | nil =>
    rcases h with h | h
    · cases h
    · exact h
  | cons a t ih =>
    rw [List.foldl_cons]
    rcases h with h | h
    · rcases List.mem_cons.mp h with he | ht
      · subst he
        exact ih _ (Or.inr (ensArrStep_establishes fs key))
      · exact ih _ (Or.inl ht)
    · exact ih _ (Or.inr (ensArrStep_preserves fs key a h))

theorem fixLemma_obj_eq (o : List (String × Json)) :
    fixLemma (Json.obj o) = Except.ok (Json.obj (setF (spreadFields (Json.obj o)) "proof"
      (match (Json.obj o).jsGet "proof" with
       | some (Json.str q) => Json.str q
       | _ => Json.str ""))) := rfl

theorem fixLemma_shape (l l' : Json) (h : fixLemma l = .ok l') :
    ∃ lfs p, l' = Json.obj lfs ∧ getF lfs "proof" = some (Json.str p) := by
  cases l with
  | null => exact absurd h (by simp [fixLemma])
  | bool b =>
    rw [show fixLemma (Json.bool b) = .ok (Json.obj (setF (spreadFields (Json.bool b))
      "proof" (Json.str ""))) from rfl] at h
    exact ⟨_, "", (Except.ok.inj h).symm, getF_setF_self _ _ _⟩
  | num n =>
    rw [show fixLemma (Json.num n) = .ok (Json.obj (setF (spreadFields (Json.num n))
      "proof" (Json.str ""))) from rfl] at h
    exact ⟨_, "", (Except.ok.inj h).symm, getF_setF_self _ _ _⟩
  | str s =>
    rw [show fixLemma (Json.str s) = .ok (Json.obj (setF (spreadFields (Json.str s))
      "proof" (Json.str ""))) from rfl] at h
    exact ⟨_, "", (Except.ok.inj h).symm, getF_setF_self _ _ _⟩
  | arr xs =>
    rw [show fixLemma (Json.arr xs) = .ok (Json.obj (setF (spreadFields (Json.arr xs))
      "proof" (Json.str ""))) from rfl] at h
    exact ⟨_, "", (Except.ok.inj h).symm, getF_setF_self _ _ _⟩
  | obj o =>
    cases hg : getF o "proof" with
    | some v =>
      have hg' : (Json.obj o).jsGet "proof" = some v := hg
      cases v with
      | str p =>
        have hfix : fixLemma (Json.obj o) = .ok (Json.obj
            (setF (spreadFields (Json.obj o)) "proof" (Json.str p))) := by
          rw [fixLemma_obj_eq o, hg']
        rw [hfix] at h
        exact ⟨_, p, (Except.ok.inj h).symm, getF_setF_self _ _ _⟩
      | null =>
        have hfix : fixLemma (Json.obj o) = .ok (Json.obj
            (setF (spreadFields (Json.obj o)) "proof" (Json.str ""))) := by
          rw [fixLemma_obj_eq o, hg']
        rw [hfix] at h
        exact ⟨_, "", (Except.ok.inj h).symm, getF_setF_self _ _ _⟩
      | bool b =>
        have hfix : fixLemma (Json.obj o) = .ok (Json.obj
            (setF (spreadFields (Json.obj o)) "proof" (Json.str ""))) := by
          rw [fixLemma_obj_eq o, hg']
        rw [hfix] at h
        exact ⟨_, "", (Except.ok.inj h).symm, getF_setF_self _ _ _⟩
      | num n =>
        have hfix : fixLemma (Json.obj o) = .ok (Json.obj
            (setF (spreadFields (Json.obj o)) "proof" (Json.str ""))) := by
          rw [fixLemma_obj_eq o, hg']
        rw [hfix] at h
        exact ⟨_, "", (Except.ok.inj h).symm, getF_setF_self _ _ _⟩
      | arr ys =>
        have hfix : fixLemma (Json.obj o) = .ok (Json.obj
            (setF (spreadFields (Json.obj o)) "proof" (Json.str ""))) := by
          rw [fixLemma_obj_eq o, hg']
        rw [hfix] at h
        exact ⟨_, "", (Except.ok.inj h).symm, getF_setF_self _ _ _⟩
      | obj o2 =>
        have hfix : fixLemma (Json.obj o) = .ok (Json.obj
            (setF (spreadFields (Json.obj o)) "proof" (Json.str ""))) := by
          rw [fixLemma_obj_eq o, hg']
        rw [hfix] at h
        exact ⟨_, "", (Except.ok.inj h).symm, getF_setF_self _ _ _⟩
    | none =>
      have hg' : (Json.obj o).jsGet "proof" = none := hg
      have hfix : fixLemma (Json.obj o) = .ok (Json.obj
          (setF (spreadFields (Json.obj o)) "proof" (Json.str ""))) := by
        rw [fixLemma_obj_eq o, hg']
      rw [hfix] at h
      exact ⟨_, "", (Except.ok.inj h).symm, getF_setF_self _ _ _⟩

theorem mapM_fixLemma_forall (ls ls' : List Json)
    (h : ls.mapM fixLemma = Except.ok ls') :
    ∀ l' ∈ ls', ∃ lfs p, l' = Json.obj lfs ∧ getF lfs "proof" = some (Json.str p) := by
  induction ls generalizing ls' with
  | nil =>
    have h0 : (Except.ok [] : Except Unit (List Json)) = Except.ok ls' := h
    rw [← Except.ok.inj h0]
    intro l' hl'
    cases hl'
  | cons a t ih =>
    rw [List.mapM_cons] at h
    cases ha : fixLemma a with
    | error e =>
      rw [ha] at h
      have hcon : (Except.error e : Except Unit (List Json)) = Except.ok ls' := h
      cases hcon
    | ok a' =>
      rw [ha] at h
      cases ht : t.mapM fixLemma with
      | error e =>
        rw [ht] at h
        have hcon : (Except.error e : Except Unit (List Json)) = Except.ok ls' := h
        cases hcon
      | ok t' =>
        rw [ht] at h
        have h3 : (Except.ok (a' :: t') : Except Unit (List Json)) = Except.ok ls' := h
        rw [← Except.ok.inj h3]
        intro l' hl'
        rcases List.mem_cons.mp hl' with he | hm
        · subst he
          exact fixLemma_shape a l' ha
        · exact ih t' ht l' hm

theorem strNonempty_some (ov : Option Json) (s : String)
    (h : strNonempty ov = some s) : s ≠ "" := by
  unfold strNonempty at h
  cases ov with
  | none => cases h
  | some v =>
    cases v with
    | str t =>
      by_cases ht : t = ""
      · rw [ht] at h
        simp at h
      · simp [ht] at h
        rw [← h]
        exact ht
    | null => cases h
    | bool b => cases h
    | num n => cases h
    | arr xs => cases h
    | obj o => cases h

theorem normMsgsGo_norm (g : Nat → String) (ms : List Json) (i k : Nat)
    (hwf : ∀ m ∈ ms, wfMsg m = true) :
    ∀ m' ∈ (normMsgsGo g ms i k).1, NormMsg m' := by
  induction ms generalizing i k with
  | nil => intro m' hm'; cases hm'
  | cons m rest ih =>
    intro m' hm'
    have hw := hwf m (List.mem_cons_self m rest)
    have hc : ∃ c, m.jsGet "content" = some (Json.str c) := by
      unfold wfMsg at hw
      cases hg : m.jsGet "content" with
      | none => rw [hg] at hw; simp [Json.isStrOpt] at hw
      | some v =>
        cases v with
        | str c => exact ⟨c, rfl⟩
        | null => rw [hg] at hw; simp [Json.isStrOpt] at hw
        | bool b => rw [hg] at hw; simp [Json.isStrOpt] at hw
        | num n => rw [hg] at hw; simp [Json.isStrOpt] at hw
        | arr xs => rw [hg] at hw; simp [Json.isStrOpt] at hw
        | obj o => rw [hg] at hw; simp [Json.isStrOpt] at hw
    obtain ⟨c, hcv⟩ := hc
    have hrole : roleVal m = Json.str "assistant" ∨ roleVal m = Json.str "user" := by
      unfold roleVal
      by_cases hr : m.jsGet "role" = some (Json.str "assistant")
      · left; simp [hr]
      · right; simp [hr]
    rw [normMsgsGo] at hm'
    simp only [hcv, Option.getD_some] at hm'
    have hrest : ∀ m ∈ rest, wfMsg m = true :=
      fun x hx => hwf x (List.mem_cons_of_mem _ hx)
    cases hs : strNonempty (m.jsGet "id") with
    | some s =>
      simp only [hs, keepOrGen] at hm'
      rcases List.mem_cons.mp hm' with he | hm
      · subst he
        rcases hrole with hr | hr <;> rw [hr]
        · exact ⟨s, "assistant", c, rfl, strNonempty_some _ _ hs, Or.inr rfl⟩
        · exact ⟨s, "user", c, rfl, strNonempty_some _ _ hs, Or.inl rfl⟩
      · exact ih (i + 1) k hrest m' hm
    | none =>
      simp only [hs, keepOrGen, generateId] at hm'
      rcases List.mem_cons.mp hm' with he | hm
      · subst he
        have hne : ("chat-" ++ natToStr i) ++ "-" ++ g k ≠ "" :=
          append_ne_empty_of_left _ _
            (append_ne_empty_of_left _ _ (append_ne_empty_of_left _ _ (by decide)))
        rcases hrole with hr | hr <;> rw [hr]
        · exact ⟨_, "assistant", c, rfl, hne, Or.inr rfl⟩
        · exact ⟨_, "user", c, rfl, hne, Or.inl rfl⟩
      · exact ih (i + 1) (k + 1) hrest m' hm

theorem normalizeMessages_norm (g : Nat → String) (mv : Option Json) (k : Nat) :
    ∀ m' ∈ (normalizeMessages g mv k).1, NormMsg m' := by
  intro m' hm'
  exact normMsgsGo_norm g ((arrOrNil mv).filter wfMsg) 0 k
    (fun m hm => List.of_mem_filter hm) m' hm'

theorem titleVal_trim (ov : Option Json) (i : Nat) :
    jsTrim (titleVal ov i) = titleVal ov i := by
  unfold titleVal
  cases ov with
  | none => exact jsTrim_threadTitle (i + 1)
  | some v =>
    cases v with
    | str s =>
      by_cases hs : jsTrim s ≠ ""
      · simp only [hs, if_true]
        simp [hs, jsTrim_idem]
      · simp only [hs]
        simp [hs, jsTrim_threadTitle (i + 1)]
    | null => exact jsTrim_threadTitle (i + 1)
    | bool b => exact jsTrim_threadTitle (i + 1)
    | num n => exact jsTrim_threadTitle (i + 1)
    | arr xs => exact jsTrim_threadTitle (i + 1)
    | obj o => exact jsTrim_threadTitle (i + 1)

theorem titleVal_ne_empty (ov : Option Json) (i : Nat) : titleVal ov i ≠ "" := by
  unfold titleVal
  cases ov with
  | none => exact threadTitle_ne_empty (i + 1)
  | some v =>
    cases v with
    | str s =>
      by_cases hs : jsTrim s = ""
      · simp [hs, threadTitle_ne_empty (i + 1)]
      · simp [hs]
    | null => exact threadTitle_ne_empty (i + 1)
    | bool b => exact threadTitle_ne_empty (i + 1)
    | num n => exact threadTitle_ne_empty (i + 1)
    | arr xs => exact threadTitle_ne_empty (i + 1)
    | obj o => exact threadTitle_ne_empty (i + 1)

theorem keepOrGen_ne_empty (ov : Option Json) (pfx : String) (g : Nat → String)
    (k : Nat) (hp : pfx ≠ "") : (keepOrGen (strNonempty ov) pfx g k).1 ≠ "" := by
  cases hs : strNonempty ov with
  | some s =>
    simp only [keepOrGen]
    exact strNonempty_some ov s hs
  | none =>
    simp only [keepOrGen]
    exact generateId_ne_empty pfx g k hp

theorem normThreadOne_norm (now : String) (g : Nat → String) (t : Json)
    (i k : Nat) : NormThread (normThreadOne now g t i k).1 := by
  refine ⟨(keepOrGen (strNonempty (t.jsGet "id")) "thread" g k).1,
    titleVal (t.jsGet "title") i,
    (normalizeMessages g (t.jsGet "messages")
      (keepOrGen (strNonempty (t.jsGet "id")) "thread" g k).2).1,
    strOr (t.jsGet "createdAt") now,
    strOr (t.jsGet "updatedAt") (strOr (t.jsGet "createdAt") now),
    rfl,
    keepOrGen_ne_empty _ _ g k (by decide),
    titleVal_trim _ i, titleVal_ne_empty _ i,
    normalizeMessages_norm g _ _⟩

theorem normThreadsGo_norm (now : String) (g : Nat → String) (ts : List Json)
    (i k : Nat) : ∀ t' ∈ (normThreadsGo now g ts i k).1, NormThread t' := by
  induction ts generalizing i k with
  | nil => intro t' ht'; cases ht'
  | cons t rest ih =>
    intro t' ht'
    rw [normThreadsGo] at ht'
    rcases List.mem_cons.mp ht' with he | hm
    · rw [he]
      exact normThreadOne_norm now g t i k
    · exact ih (i + 1) _ t' hm

theorem normalizeChatThreads_shape (now : String) (g : Nat → String)
    (fs : List (String × Json)) (k : Nat) :
    ∃ tsv k2, normalizeChatThreads now g fs k =
      (delF (setF fs "chatThreads" (Json.arr tsv)) "chatHistory", k2) ∧
      ∀ t ∈ tsv, NormThread t := by
  unfold normalizeChatThreads
  refine ⟨_, _, rfl, ?_⟩
  intro t' ht'
  by_cases hc : (List.filter threadKeep
      (normThreadsGo now g (arrOrNil (getF fs "chatThreads")) 0 k).1).isEmpty
  · simp only [hc, if_true] at ht'
    by_cases hf : (normalizeMessages g (getF fs "chatHistory")
        (normThreadsGo now g (arrOrNil (getF fs "chatThreads")) 0 k).2).1.isEmpty
    · simp only [hf, if_true] at ht'
      exact normThreadsGo_norm now g _ 0 k t' (List.mem_of_mem_filter ht')
    · simp only [show (normalizeMessages g (getF fs "chatHistory")
          (normThreadsGo now g (arrOrNil (getF fs "chatThreads")) 0 k).2).1.isEmpty
          = false from Bool.eq_false_iff.mpr hf, Bool.false_eq_true, if_false] at ht'
      rcases List.mem_append.mp ht' with hm | hm
      · exact normThreadsGo_norm now g _ 0 k t' (List.mem_of_mem_filter hm)
      · rcases List.mem_singleton.mp hm with rfl
        refine ⟨(generateId "thread" g _).1, "Thread #1", _, now, now, rfl,
          generateId_ne_empty _ g _ (by decide), ?_, by decide,
          normalizeMessages_norm g _ _⟩
        rfl
  · simp only [show (List.filter threadKeep
        (normThreadsGo now g (arrOrNil (getF fs "chatThreads")) 0 k).1).isEmpty
        = false from Bool.eq_false_iff.mpr hc, Bool.false_eq_true, if_false] at ht'
    exact normThreadsGo_norm now g _ 0 k t' (List.mem_of_mem_filter ht')

theorem getF_normalizeChatThreads_ne (now : String) (g : Nat → String)
    (fs : List (String × Json)) (k : Nat) (key : String)
    (h1 : key ≠ "chatThreads") (h2 : key ≠ "chatHistory") :
    getF (normalizeChatThreads now g fs k).1 key = getF fs key := by
  obtain ⟨tsv, k2, heq, _⟩ := normalizeChatThreads_shape now g fs k
  rw [heq]
  show getF (delF (setF fs "chatThreads" (Json.arr tsv)) "chatHistory") key = _
  rw [getF_delF_ne _ _ _ h2, getF_setF_ne _ _ _ _ h1]

theorem ensureStr_establishes (fs : List (String × Json)) (key d : String) :
    ∃ s, getF (ensureStr fs key d) key = some (Json.str s) := by
  unfold ensureStr
  cases hget : getF fs key with
  | none => exact ⟨d, getF_setF_self _ _ _⟩
  | some v =>
    cases v with
    | str s => exact ⟨s, hget⟩
    | null => exact ⟨d, getF_setF_self _ _ _⟩
    | bool b => exact ⟨d, getF_setF_self _ _ _⟩
    | num n => exact ⟨d, getF_setF_self _ _ _⟩
    | arr xs => exact ⟨d, getF_setF_self _ _ _⟩
    | obj o => exact ⟨d, getF_setF_self _ _ _⟩

theorem ensureOwner_establishes (fs : List (String × Json)) :
    ∃ s, getF (ensureOwner fs) "owner" = some (Json.str s) ∧ s ≠ "" := by
  unfold ensureOwner
  cases hget : getF fs "owner" with
  | none => exact ⟨"local", getF_setF_self _ _ _, by decide⟩
  | some v =>
    cases v with
    | str s =>
      by_cases hs : s = ""
      · simp only [hs, if_true]
        exact ⟨"local", getF_setF_self _ _ _, by decide⟩
      · simp only [hs, if_false]
        exact ⟨s, hget, hs⟩
    | null => exact ⟨"local", getF_setF_self _ _ _, by decide⟩
    | bool b => exact ⟨"local", getF_setF_self _ _ _, by decide⟩
    | num n => exact ⟨"local", getF_setF_self _ _ _, by decide⟩
    | arr xs => exact ⟨"local", getF_setF_self _ _ _, by decide⟩
    | obj o => exact ⟨"local", getF_setF_self _ _ _, by decide⟩

theorem stripLlmField_llmOk (fs : List (String × Json)) :
    LlmFixed (stripLlmField fs) := by
  unfold stripLlmField
  cases hget : getF fs "llm" with
  | none => exact Or.inl hget
  | some lv =>
    show LlmFixed (if (lv.truthy && lv.typeofObject) = true then
        (let rest := delF lv.spreadFields "apiKey";
         if rest.isEmpty = true then delF fs "llm" else setF fs "llm" (Json.obj rest))
      else fs)
    by_cases hc : (lv.truthy && lv.typeofObject) = true
    · rw [hc]
      simp only [if_true]
      by_cases hr : (delF (spreadFields lv) "apiKey").isEmpty
      · simp only [hr, if_true]
        exact Or.inl (getF_delF_self _ _)
      · simp only [show (delF (spreadFields lv) "apiKey").isEmpty = false from
          Bool.eq_false_iff.mpr hr, Bool.false_eq_true, if_false]
        refine Or.inr (Or.inr ⟨delF (spreadFields lv) "apiKey",
          getF_setF_self _ _ _, ?_, getF_delF_self _ _⟩)
        intro hnil
        rw [hnil] at hr
        exact hr rfl
    · rw [Bool.eq_false_iff.mpr hc]
      simp only [Bool.false_eq_true, if_false]
      exact Or.inr (Or.inl ⟨lv, hget, Bool.eq_false_iff.mpr hc⟩)

theorem stripSensitive_settingsOk (fs : List (String × Json)) :
    getF (stripSensitive fs) "settings" = none ∨
    (∃ v, getF (stripSensitive fs) "settings" = some v ∧
      (v.truthy && typeofObject v) = false) ∨
    (∃ sfs, getF (stripSensitive fs) "settings" = some (Json.obj sfs) ∧
      sfs ≠ [] ∧ LlmFixed sfs) := by
  unfold stripSensitive
  rw [getF_stripLlmField_ne _ _ (by decide)]
  cases hget : getF fs "settings" with
  | none => exact Or.inl hget
  | some sv =>
    show getF (if (sv.truthy && sv.typeofObject) = true then
        (if (stripLlmField sv.spreadFields).isEmpty = true then delF fs "settings"
         else setF fs "settings" (Json.obj (stripLlmField sv.spreadFields)))
      else fs) "settings" = none ∨
      (∃ v, getF (if (sv.truthy && sv.typeofObject) = true then
        (if (stripLlmField sv.spreadFields).isEmpty = true then delF fs "settings"
         else setF fs "settings" (Json.obj (stripLlmField sv.spreadFields)))
      else fs) "settings" = some v ∧ (v.truthy && typeofObject v) = false) ∨
      (∃ sfs, getF (if (sv.truthy && sv.typeofObject) = true then
        (if (stripLlmField sv.spreadFields).isEmpty = true then delF fs "settings"
         else setF fs "settings" (Json.obj (stripLlmField sv.spreadFields)))
      else fs) "settings" = some (Json.obj sfs) ∧ sfs ≠ [] ∧ LlmFixed sfs)
    by_cases hc : (sv.truthy && sv.typeofObject) = true
    · rw [if_pos hc]
      by_cases hr : (stripLlmField (spreadFields sv)).isEmpty = true
      · rw [if_pos hr]
        exact Or.inl (getF_delF_self _ _)
      · rw [if_neg hr]
        refine Or.inr (Or.inr ⟨stripLlmField (spreadFields sv),
          getF_setF_self _ _ _, ?_, stripLlmField_llmOk _⟩)
        intro hnil
        rw [hnil] at hr
        exact hr rfl
    · rw [if_neg hc]
      exact Or.inr (Or.inl ⟨sv, hget, Bool.eq_false_iff.mpr hc⟩)

theorem stripSensitive_llmOk (fs : List (String × Json)) :
    LlmFixed (stripSensitive fs) := by
  unfold stripSensitive
  exact stripLlmField_llmOk _


/-- The value of every untouched key survives the normalizer tail. -/
theorem stripChain_frame (now : String) (g : Nat → String) (k : Nat)
    (fs2 : List (String × Json)) (key : String)
    (h1 : key ≠ "settings") (h2 : key ≠ "llm") (h3 : key ≠ "chatThreads")
    (h4 : key ≠ "chatHistory") (h5 : key ≠ "updatedAt") (h6 : key ≠ "createdAt")
    (h7 : key ≠ "title") (h8 : key ≠ "owner") (h9 : key ≠ "abstract") :
    getF (stripSensitive (normalizeChatThreads now g (ensureStr (ensureStr (ensureStr (ensureOwner (ensureStr (setF fs2 "chatHistory" (Json.arr (normChatHistory (arrOrNil (getF fs2 "chatHistory"))))) "abstract" "")) "title" "Untitled") "createdAt" now) "updatedAt" now) k).1) key = getF fs2 key := by
  rw [getF_stripSensitive_ne _ _ h2 h1,
    getF_normalizeChatThreads_ne now g _ k _ h3 h4,
    getF_ensureStr_ne _ _ _ _ h5, getF_ensureStr_ne _ _ _ _ h6,
    getF_ensureStr_ne _ _ _ _ h7, getF_ensureOwner_ne _ _ h8,
    getF_ensureStr_ne _ _ _ _ h9, getF_setF_ne _ _ _ _ h4]

theorem shapeTail_norm (now : String) (g : Nat → String) (k : Nat)
    (fs2 : List (String × Json))
    (hn : ∃ xs, getF fs2 "notation" = some (Json.arr xs))
    (hd : ∃ xs, getF fs2 "definitions" = some (Json.arr xs))
    (hf : ∃ xs, getF fs2 "facts" = some (Json.arr xs))
    (hc2 : ∃ xs, getF fs2 "conjectures" = some (Json.arr xs))
    (hi : ∃ xs, getF fs2 "ideas" = some (Json.arr xs))
    (hp : ∃ xs, getF fs2 "pitfalls" = some (Json.arr xs))
    (hat : ∃ xs, getF fs2 "attempts" = some (Json.arr xs))
    (hac : ∃ xs, getF fs2 "attachments" = some (Json.arr xs))
    (hl : ∃ ls, getF fs2 "lemmas" = some (Json.arr ls) ∧
      ∀ l ∈ ls, ∃ lfs p, l = Json.obj lfs ∧ getF lfs "proof" = some (Json.str p)) :
    ∃ fs, (shapeTail now g fs2 k).1 = Json.obj fs ∧ NormFields fs := by
  obtain ⟨tsv, k2, hshape, hts⟩ := normalizeChatThreads_shape now g (ensureStr (ensureStr (ensureStr (ensureOwner (ensureStr (setF fs2 "chatHistory" (Json.arr (normChatHistory (arrOrNil (getF fs2 "chatHistory"))))) "abstract" "")) "title" "Untitled") "createdAt" now) "updatedAt" now) k
  refine ⟨(stripSensitive (normalizeChatThreads now g (ensureStr (ensureStr (ensureStr (ensureOwner (ensureStr (setF fs2 "chatHistory" (Json.arr (normChatHistory (arrOrNil (getF fs2 "chatHistory"))))) "abstract" "")) "title" "Untitled") "createdAt" now) "updatedAt" now) k).1), rfl, ?_⟩
  constructor
  · rw [getF_stripSensitive_ne _ _ (by decide) (by decide), hshape]
    exact getF_delF_self _ _
  · rw [stripChain_frame now g k fs2 "notation" (by decide) (by decide) (by decide)
      (by decide) (by decide) (by decide) (by decide) (by decide) (by decide)]
    exact hn
  · rw [stripChain_frame now g k fs2 "definitions" (by decide) (by decide) (by decide)
      (by decide) (by decide) (by decide) (by decide) (by decide) (by decide)]
    exact hd
  · rw [stripChain_frame now g k fs2 "facts" (by decide) (by decide) (by decide)
      (by decide) (by decide) (by decide) (by decide) (by decide) (by decide)]
    exact hf
  · rw [stripChain_frame now g k fs2 "conjectures" (by decide) (by decide) (by decide)
      (by decide) (by decide) (by decide) (by decide) (by decide) (by decide)]
    exact hc2
  · rw [stripChain_frame now g k fs2 "ideas" (by decide) (by decide) (by decide)
      (by decide) (by decide) (by decide) (by decide) (by decide) (by decide)]
    exact hi
  · rw [stripChain_frame now g k fs2 "pitfalls" (by decide) (by decide) (by decide)
      (by decide) (by decide) (by decide) (by decide) (by decide) (by decide)]
    exact hp
  · rw [stripChain_frame now g k fs2 "attempts" (by decide) (by decide) (by decide)
      (by decide) (by decide) (by decide) (by decide) (by decide) (by decide)]
    exact hat
  · rw [stripChain_frame now g k fs2 "attachments" (by decide) (by decide) (by decide)
      (by decide) (by decide) (by decide) (by decide) (by decide) (by decide)]
    exact hac
  · obtain ⟨ls, hls, hlsall⟩ := hl
    refine ⟨ls, ?_, hlsall⟩
    rw [stripChain_frame now g k fs2 "lemmas" (by decide) (by decide) (by decide)
      (by decide) (by decide) (by decide) (by decide) (by decide) (by decide)]
    exact hls
  · rw [getF_stripSensitive_ne _ _ (by decide) (by decide), hshape]
    refine ⟨tsv, ?_, hts⟩
    show getF (delF (setF (ensureStr (ensureStr (ensureStr (ensureOwner (ensureStr (setF fs2 "chatHistory" (Json.arr (normChatHistory (arrOrNil (getF fs2 "chatHistory"))))) "abstract" "")) "title" "Untitled") "createdAt" now) "updatedAt" now) "chatThreads" (Json.arr tsv)) "chatHistory")
      "chatThreads" = some (Json.arr tsv)
    rw [getF_delF_ne _ _ _ (by decide), getF_setF_self]
  · rw [getF_stripSensitive_ne _ _ (by decide) (by decide),
      getF_normalizeChatThreads_ne now g _ k _ (by decide) (by decide),
      getF_ensureStr_ne _ _ _ _ (by decide), getF_ensureStr_ne _ _ _ _ (by decide),
      getF_ensureStr_ne _ _ _ _ (by decide), getF_ensureOwner_ne _ _ (by decide)]
    exact ensureStr_establishes (setF fs2 "chatHistory" (Json.arr (normChatHistory (arrOrNil (getF fs2 "chatHistory"))))) "abstract" ""
  · rw [getF_stripSensitive_ne _ _ (by decide) (by decide),
      getF_normalizeChatThreads_ne now g _ k _ (by decide) (by decide),
      getF_ensureStr_ne _ _ _ _ (by decide), getF_ensureStr_ne _ _ _ _ (by decide),
      getF_ensureStr_ne _ _ _ _ (by decide)]
    exact ensureOwner_establishes (ensureStr (setF fs2 "chatHistory" (Json.arr (normChatHistory (arrOrNil (getF fs2 "chatHistory"))))) "abstract" "")
  · rw [getF_stripSensitive_ne _ _ (by decide) (by decide),
      getF_normalizeChatThreads_ne now g _ k _ (by decide) (by decide),
      getF_ensureStr_ne _ _ _ _ (by decide), getF_ensureStr_ne _ _ _ _ (by decide)]
    exact ensureStr_establishes (ensureOwner (ensureStr (setF fs2 "chatHistory" (Json.arr (normChatHistory (arrOrNil (getF fs2 "chatHistory"))))) "abstract" "")) "title" "Untitled"
  · rw [getF_stripSensitive_ne _ _ (by decide) (by decide),
      getF_normalizeChatThreads_ne now g _ k _ (by decide) (by decide),
      getF_ensureStr_ne _ _ _ _ (by decide)]
    exact ensureStr_establishes (ensureStr (ensureOwner (ensureStr (setF fs2 "chatHistory" (Json.arr (normChatHistory (arrOrNil (getF fs2 "chatHistory"))))) "abstract" "")) "title" "Untitled") "createdAt" now
  · rw [getF_stripSensitive_ne _ _ (by decide) (by decide),
      getF_normalizeChatThreads_ne now g _ k _ (by decide) (by decide)]
    exact ensureStr_establishes (ensureStr (ensureStr (ensureOwner (ensureStr (setF fs2 "chatHistory" (Json.arr (normChatHistory (arrOrNil (getF fs2 "chatHistory"))))) "abstract" "")) "title" "Untitled") "createdAt" now) "updatedAt" now
  · exact stripSensitive_settingsOk _
  · exact stripSensitive_llmOk _


/-- A successful run of the normalizer yields an object in normal form. -/
theorem ensureProjectShape_norm (x : Json) (now : String) (g : Nat → String)
    (k : Nat) (y : Json) (k1 : Nat)
    (h : ensureProjectShape now g x k = .ok (y, k1)) :
    ∃ fs, y = Json.obj fs ∧ NormFields fs := by
  obtain ⟨ls, hls⟩ := foldl_ensArr_establishes arrayKeys (spreadFields x) "lemmas"
    (Or.inl (by decide))
  have hls' : getF (ensureArrays (spreadFields x)) "lemmas" = some (Json.arr ls) := hls
  unfold ensureProjectShape at h
  simp only [hls'] at h
  cases hmap : ls.mapM fixLemma with
  | error e =>
    have hmap' : ls.mapM fixLemma = Except.error e := hmap
    simp only [hmap'] at h
    have hcon : (Except.error e : Except Unit (Json × Nat)) = Except.ok (y, k1) := h
    cases hcon
  | ok ls' =>
    have hmap' : ls.mapM fixLemma = pure ls' := hmap
    simp only [hmap', pure_bind] at h
    have h4 : shapeTail now g (setF (ensureArrays (spreadFields x)) "lemmas" (Json.arr ls')) k = (y, k1) := Except.ok.inj h
    have harr : ∀ key, key ∈ arrayKeys → key ≠ "lemmas" →
        ∃ xs, getF (setF (ensureArrays (spreadFields x)) "lemmas" (Json.arr ls')) key = some (Json.arr xs) := by
      intro key hk hne
      rw [getF_setF_ne _ _ _ _ hne]
      exact foldl_ensArr_establishes arrayKeys (spreadFields x) key (Or.inl hk)
    obtain ⟨fs, hfs, hnorm⟩ := shapeTail_norm now g k (setF (ensureArrays (spreadFields x)) "lemmas" (Json.arr ls'))
      (harr "notation" (by decide) (by decide))
      (harr "definitions" (by decide) (by decide))
      (harr "facts" (by decide) (by decide))
      (harr "conjectures" (by decide) (by decide))
      (harr "ideas" (by decide) (by decide))
      (harr "pitfalls" (by decide) (by decide))
      (harr "attempts" (by decide) (by decide))
      (harr "attachments" (by decide) (by decide))
      ⟨ls', getF_setF_self _ _ _, mapM_fixLemma_forall ls ls' hmap⟩
    refine ⟨fs, ?_, hnorm⟩
    rw [← hfs]
    exact (congrArg Prod.fst h4).symm

/-- Keys outside the repaired set pass through the whole normalizer with
their value untouched. -/
theorem ensureProjectShape_frame (xf : List (String × Json)) (now : String)
    (g : Nat → String) (k : Nat) (y : Json) (k1 : Nat)
    (h : ensureProjectShape now g (Json.obj xf) k = .ok (y, k1))
    (key : String)
    (h0 : key ∉ arrayKeys) (h3 : key ≠ "chatThreads") (h1 : key ≠ "settings")
    (h2 : key ≠ "llm") (h5 : key ≠ "updatedAt") (h6 : key ≠ "createdAt")
    (h7 : key ≠ "title") (h8 : key ≠ "owner") (h9 : key ≠ "abstract") :
    y.jsGet key = getF xf key := by
  have hch : key ≠ "chatHistory" := by
    intro he
    exact h0 (by rw [he]; decide)
  have hlm : key ≠ "lemmas" := by
    intro he
    exact h0 (by rw [he]; decide)
  obtain ⟨ls, hls⟩ := foldl_ensArr_establishes arrayKeys
    (spreadFields (Json.obj xf)) "lemmas" (Or.inl (by decide))
  have hls' : getF (ensureArrays (spreadFields (Json.obj xf))) "lemmas" =
      some (Json.arr ls) := hls
  unfold ensureProjectShape at h
  simp only [hls'] at h
  cases hmap : ls.mapM fixLemma with
  | error e =>
    have hmap' : ls.mapM fixLemma = Except.error e := hmap
    simp only [hmap'] at h
    have hcon : (Except.error e : Except Unit (Json × Nat)) = Except.ok (y, k1) := h
    cases hcon
  | ok ls' =>
    have hmap' : ls.mapM fixLemma = pure ls' := hmap
    simp only [hmap', pure_bind] at h
    have h4 : shapeTail now g (setF (ensureArrays (spreadFields (Json.obj xf)))
        "lemmas" (Json.arr ls')) k = (y, k1) := Except.ok.inj h
    have hy : y = (shapeTail now g (setF (ensureArrays (spreadFields (Json.obj xf)))
        "lemmas" (Json.arr ls')) k).1 := (congrArg Prod.fst h4).symm
    rw [hy]
    show getF (stripSensitive (normalizeChatThreads now g
      (ensureStr (ensureStr (ensureStr (ensureOwner (ensureStr
        (setF (setF (ensureArrays (spreadFields (Json.obj xf))) "lemmas" (Json.arr ls'))
          "chatHistory" (Json.arr (normChatHistory (arrOrNil (getF
            (setF (ensureArrays (spreadFields (Json.obj xf))) "lemmas" (Json.arr ls'))
            "chatHistory")))))
        "abstract" "")) "title" "Untitled") "createdAt" now) "updatedAt" now) k).1)
      key = getF xf key
    rw [stripChain_frame now g k _ key h1 h2 h3 hch h5 h6 h7 h8 h9,
      getF_setF_ne _ _ _ _ hlm]
    show getF (List.foldl ensArrStep (spreadFields (Json.obj xf)) arrayKeys) key =
      getF xf key
    rw [getF_foldl_ensArr_notin arrayKeys _ key h0]
    rfl

theorem ensArrStep_preserves_val (acc : List (String × Json)) (key key' : String)
    (xs : List Json) (h : getF acc key = some (Json.arr xs)) :
    getF (ensArrStep acc key') key = some (Json.arr xs) := by
  by_cases he : key = key'
  · subst he
    rw [ensArrStep_of_arr _ _ _ h]
    exact h
  · rw [getF_ensArrStep_ne _ _ _ he]
    exact h

theorem foldl_ensArr_preserves_val (ks : List String) (fs : List (String × Json))
    (key : String) (xs : List Json) (h : getF fs key = some (Json.arr xs)) :
    getF (List.foldl ensArrStep fs ks) key = some (Json.arr xs) := by
  induction ks generalizing fs with
  | nil => exact h
  | cons a t ih =>
    rw [List.foldl_cons]
    exact ih _ (ensArrStep_preserves_val fs key a xs h)

theorem normChatHistory_norm (ch : List Json) :
    ∀ m' ∈ normChatHistory ch, NormMsg m' := by
  intro m' hm'
  unfold normChatHistory at hm'
  obtain ⟨p, hp, hbuild⟩ := List.mem_map.mp hm'
  obtain ⟨j, m⟩ := p
  have hmem : m ∈ ch.filter wfMsg :=
    List.get?_mem (List.mem_enum_iff_get?.mp hp)
  have hw : wfMsg m = true := List.of_mem_filter hmem
  have hc : ∃ c, m.jsGet "content" = some (Json.str c) := by
    unfold wfMsg at hw
    cases hg : m.jsGet "content" with
    | none => rw [hg] at hw; simp [Json.isStrOpt] at hw
    | some v =>
      cases v with
      | str c => exact ⟨c, rfl⟩
      | null => rw [hg] at hw; simp [Json.isStrOpt] at hw
      | bool b => rw [hg] at hw; simp [Json.isStrOpt] at hw
      | num n => rw [hg] at hw; simp [Json.isStrOpt] at hw
      | arr xs => rw [hg] at hw; simp [Json.isStrOpt] at hw
      | obj o => rw [hg] at hw; simp [Json.isStrOpt] at hw
  obtain ⟨c, hcv⟩ := hc
  have hrole : roleVal m = Json.str "assistant" ∨ roleVal m = Json.str "user" := by
    unfold roleVal
    by_cases hr : m.jsGet "role" = some (Json.str "assistant")
    · left; simp [hr]
    · right; simp [hr]
  have hidne : (strNonempty (m.jsGet "id")).getD ("chat-" ++ natToStr j) ≠ "" := by
    cases hs : strNonempty (m.jsGet "id") with
    | some s =>
      simp only [Option.getD_some]
      exact strNonempty_some _ _ hs
    | none =>
      simp only [Option.getD_none]
      exact append_ne_empty_of_left _ _ (by decide)
  rw [← hbuild]
  rcases hrole with hr | hr <;> rw [hr] <;> rw [hcv]
  · exact ⟨_, "assistant", c, rfl, hidne, Or.inr rfl⟩
  · exact ⟨_, "user", c, rfl, hidne, Or.inl rfl⟩

/-- The thread-consolidation step when no thread survives the map: either no
well-formed legacy message exists and the thread list is empty, or exactly
one fallback thread titled "Thread #1" is synthesized. -/
theorem normalizeChatThreads_fallback (now : String) (g : Nat → String)
    (fs : List (String × Json)) (k : Nat) (L : List Json)
    (hT : arrOrNil (getF fs "chatThreads") = [])
    (hch : getF fs "chatHistory" = some (Json.arr L))
    (hL : ∀ m ∈ L, NormMsg m) :
    normalizeChatThreads now g fs k =
      if L.isEmpty then (delF (setF fs "chatThreads" (Json.arr [])) "chatHistory", k)
      else (delF (setF fs "chatThreads" (Json.arr [Json.obj
        [("id", Json.str ((generateId "thread" g k).1)),
         ("title", Json.str "Thread #1"), ("messages", Json.arr L),
         ("createdAt", Json.str now), ("updatedAt", Json.str now)]]))
        "chatHistory", (generateId "thread" g k).2) := by
  unfold normalizeChatThreads
  rw [hT, hch]
  simp only [show normThreadsGo now g [] 0 k = ([], k) from rfl,
    List.filter_nil, List.isEmpty_nil, if_true,
    normalizeMessages_fixed g L k hL]
  cases L with
  | nil => rfl
  | cons a rest => rfl

theorem ensureProjectShape_preserves_createdAt (xf : List (String × Json))
    (now : String) (g : Nat → String) (k : Nat) (y : Json) (k1 : Nat) (c : String)
    (h : ensureProjectShape now g (Json.obj xf) k = .ok (y, k1))
    (hc : getF xf "createdAt" = some (Json.str c)) :
    y.jsGet "createdAt" = some (Json.str c) := by
  obtain ⟨ls, hls⟩ := foldl_ensArr_establishes arrayKeys
    (spreadFields (Json.obj xf)) "lemmas" (Or.inl (by decide))
  have hls' : getF (ensureArrays (spreadFields (Json.obj xf))) "lemmas" =
      some (Json.arr ls) := hls
  unfold ensureProjectShape at h
  simp only [hls'] at h
  cases hmap : ls.mapM fixLemma with
  | error e =>
    have hmap' : ls.mapM fixLemma = Except.error e := hmap
    simp only [hmap'] at h
    have hcon : (Except.error e : Except Unit (Json × Nat)) = Except.ok (y, k1) := h
    cases hcon
  | ok ls' =>
    have hmap' : ls.mapM fixLemma = pure ls' := hmap
    simp only [hmap', pure_bind] at h
    have h4 : shapeTail now g (setF (ensureArrays (spreadFields (Json.obj xf)))
        "lemmas" (Json.arr ls')) k = (y, k1) := Except.ok.inj h
    have hy : y = (shapeTail now g (setF (ensureArrays (spreadFields (Json.obj xf)))
        "lemmas" (Json.arr ls')) k).1 := (congrArg Prod.fst h4).symm
    have hc1 : getF (spreadFields (Json.obj xf)) "createdAt" = some (Json.str c) := hc
    have hc2 : getF (ensureArrays (spreadFields (Json.obj xf))) "createdAt" =
        some (Json.str c) := by
      unfold ensureArrays
      rw [getF_foldl_ensArr_notin arrayKeys _ _ (by decide)]
      exact hc1
    have hc3 : getF (setF (ensureArrays (spreadFields (Json.obj xf))) "lemmas"
        (Json.arr ls')) "createdAt" = some (Json.str c) := by
      rw [getF_setF_ne _ _ _ _ (by decide)]
      exact hc2
    rw [hy]
    unfold shapeTail
    simp only []
    show getF (stripSensitive (normalizeChatThreads now g _ k).1) "createdAt" =
      some (Json.str c)
    rw [getF_stripSensitive_ne _ _ (by decide) (by decide),
      getF_normalizeChatThreads_ne now g _ k _ (by decide) (by decide),
      getF_ensureStr_ne _ _ _ _ (by decide),
      ensureStr_of_str _ _ _ c (by
        rw [getF_ensureStr_ne _ _ _ _ (by decide),
          getF_ensureOwner_ne _ _ (by decide),
          getF_ensureStr_ne _ _ _ _ (by decide),
          getF_setF_ne _ _ _ _ (by decide)]
        exact hc3),
      getF_ensureStr_ne _ _ _ _ (by decide),
      getF_ensureOwner_ne _ _ (by decide),
      getF_ensureStr_ne _ _ _ _ (by decide),
      getF_setF_ne _ _ _ _ (by decide)]
    exact hc3

theorem ensureProjectShape_stamps_updatedAt (xf : List (String × Json))
    (now : String) (g : Nat → String) (k : Nat) (y : Json) (k1 : Nat) (u : String)
    (h : ensureProjectShape now g (Json.obj xf) k = .ok (y, k1))
    (hu : getF xf "updatedAt" = some (Json.str u)) :
    y.jsGet "updatedAt" = some (Json.str u) := by
  obtain ⟨ls, hls⟩ := foldl_ensArr_establishes arrayKeys
    (spreadFields (Json.obj xf)) "lemmas" (Or.inl (by decide))
  have hls' : getF (ensureArrays (spreadFields (Json.obj xf))) "lemmas" =
      some (Json.arr ls) := hls
  unfold ensureProjectShape at h
  simp only [hls'] at h
  cases hmap : ls.mapM fixLemma with
  | error e =>
    have hmap' : ls.mapM fixLemma = Except.error e := hmap
    simp only [hmap'] at h
    have hcon : (Except.error e : Except Unit (Json × Nat)) = Except.ok (y, k1) := h
    cases hcon
  | ok ls' =>
    have hmap' : ls.mapM fixLemma = pure ls' := hmap
    simp only [hmap', pure_bind] at h
    have h4 : shapeTail now g (setF (ensureArrays (spreadFields (Json.obj xf)))
        "lemmas" (Json.arr ls')) k = (y, k1) := Except.ok.inj h
    have hy : y = (shapeTail now g (setF (ensureArrays (spreadFields (Json.obj xf)))
        "lemmas" (Json.arr ls')) k).1 := (congrArg Prod.fst h4).symm
    have hu1 : getF (spreadFields (Json.obj xf)) "updatedAt" = some (Json.str u) := hu
    have hu2 : getF (ensureArrays (spreadFields (Json.obj xf))) "updatedAt" =
        some (Json.str u) := by
      unfold ensureArrays
      rw [getF_foldl_ensArr_notin arrayKeys _ _ (by decide)]
      exact hu1
    have hu3 : getF (setF (ensureArrays (spreadFields (Json.obj xf))) "lemmas"
        (Json.arr ls')) "updatedAt" = some (Json.str u) := by
      rw [getF_setF_ne _ _ _ _ (by decide)]
      exact hu2
    rw [hy]
    unfold shapeTail
    simp only []
    show getF (stripSensitive (normalizeChatThreads now g _ k).1) "updatedAt" =
      some (Json.str u)
    rw [getF_stripSensitive_ne _ _ (by decide) (by decide),
      getF_normalizeChatThreads_ne now g _ k _ (by decide) (by decide),
      ensureStr_of_str _ _ _ u (by
        rw [getF_ensureStr_ne _ _ _ _ (by decide),
          getF_ensureStr_ne _ _ _ _ (by decide),
          getF_ensureOwner_ne _ _ (by decide),
          getF_ensureStr_ne _ _ _ _ (by decide),
          getF_setF_ne _ _ _ _ (by decide)]
        exact hu3),
      getF_ensureStr_ne _ _ _ _ (by decide),
      getF_ensureStr_ne _ _ _ _ (by decide),
      getF_ensureOwner_ne _ _ (by decide),
      getF_ensureStr_ne _ _ _ _ (by decide),
      getF_setF_ne _ _ _ _ (by decide)]
    exact hu3

/-- `StorageService.readProject` on an existing, normalizable document:
the etag is the hash of the raw stored document, computed before
normalization, and the store is returned untouched. -/
theorem readProject_some (etagOf : Json → String) (now : String)
    (g : Nat → String) (st : Store) (pid : String) (k : Nat) (raw ex : Json)
    (kx : Nat) (hst : st pid = some raw)
    (hnorm : ensureProjectShape now g raw k = .ok (ex, kx)) :
    readProject etagOf now g st pid k = (.ok (ex, etagOf raw), st, kx) := by
  unfold readProject
  rw [hst]
  show (match ensureProjectShape now g raw k with
    | .error _ => ((.error StoreErr.internal : Except StoreErr (Json × String)), st, k)
    | .ok p => (.ok (p.1, etagOf raw), st, p.2)) = (.ok (ex, etagOf raw), st, kx)
  rw [hnorm]

/-- The save handler reduces to `saveAfterRead` on a valid request against an
existing, normalizable document. -/
theorem saveProject_run (etagOf : Json → String) (nowR nowS nowW : String)
    (g : Nat → String) (st : Store) (project : Json) (etag : String) (k : Nat)
    (pid : String) (raw ex : Json) (kx : Nat)
    (hid : project.jsGet "id" = some (Json.str pid))
    (hetag : etag ≠ "")
    (hst : st pid = some raw)
    (hnorm : ensureProjectShape nowR g raw k = .ok (ex, kx)) :
    saveProject etagOf nowR nowS nowW g st project etag k =
      saveAfterRead etagOf nowS nowW g st project etag ex (etagOf raw) kx := by
  unfold saveProject
  rw [hid]
  show (if etag = "" then ((.error SaveErr.badRequest : Except SaveErr String), st, k)
    else
      match readProject etagOf nowR g st pid k with
      | (.error StoreErr.notFound, st', k1) => (.error .notFound, st', k1)
      | (.error _, st', k1) => (.error .internal, st', k1)
      | (.ok (existing, currentEtag), st', k1) =>
        saveAfterRead etagOf nowS nowW g st' project etag existing currentEtag k1) =
      saveAfterRead etagOf nowS nowW g st project etag ex (etagOf raw) kx
  rw [if_neg hetag, readProject_some etagOf nowR g st pid k raw ex kx hst hnorm]

/-- Stale etag: reject with `PRECONDITION_FAILED`, no write. -/
theorem saveAfterRead_stale (etagOf : Json → String) (nowS nowW : String)
    (g : Nat → String) (st' : Store) (project : Json) (etag : String)
    (existing : Json) (currentEtag : String) (k1 : Nat)
    (hne : etag ≠ currentEtag) :
    saveAfterRead etagOf nowS nowW g st' project etag existing currentEtag k1 =
      (.error .preconditionFailed, st', k1) := by
  unfold saveAfterRead
  rw [if_pos hne]

/-- Matching etag: proceed to the overriding write. -/
theorem saveAfterRead_match (etagOf : Json → String) (nowS nowW : String)
    (g : Nat → String) (st' : Store) (project : Json) (etag : String)
    (ex : Json) (currentEtag : String) (k1 : Nat)
    (heq : etag = currentEtag) :
    saveAfterRead etagOf nowS nowW g st' project etag ex currentEtag k1 =
      (match writeProject etagOf nowW g st' (Json.obj (setF (setF
          (spreadFields project) "createdAt" ((ex.jsGet "createdAt").getD Json.null))
          "updatedAt" (Json.str nowS))) k1 with
        | (.error _, st2, k2) => ((.error SaveErr.internal : Except SaveErr String), st2, k2)
        | (.ok e2, st2, k2) => (.ok e2, st2, k2)) := by
  unfold saveAfterRead
  rw [if_neg (fun hc => hc heq)]

/-- A successful `writeProject` stored the normalized document (with the
redundant second credential strip a no-op) under the payload's id and
returned its etag. -/
theorem writeProject_ok (etagOf : Json → String) (now : String)
    (g : Nat → String) (st : Store) (project : Json) (k : Nat) (e : String)
    (st1 : Store) (k1 : Nat)
    (h : writeProject etagOf now g st project k = (.ok e, st1, k1)) :
    ∃ fs pid, ensureProjectShape now g (Json.obj (spreadFields project)) k =
        .ok (Json.obj fs, k1) ∧
      NormFields fs ∧ project.jsGet "id" = some (Json.str pid) ∧
      st1 = (fun i => if i = pid then some (Json.obj fs) else st i) ∧
      e = etagOf (Json.obj fs) := by
  unfold writeProject at h
  cases hn : ensureProjectShape now g (Json.obj (spreadFields project)) k with
  | error err =>
    rw [hn] at h
    have h' : ((Except.error () : Except Unit String), st, k) = (.ok e, st1, k1) := h
    exact absurd (congrArg (fun t => t.1) h') (by simp)
  | ok p =>
    obtain ⟨p1, k2⟩ := p
    rw [hn] at h
    obtain ⟨fs0, hp1, hnorm⟩ := ensureProjectShape_norm
      (Json.obj (spreadFields project)) now g k p1 k2 hn
    subst hp1
    have hstrip : stripSensitive fs0 = fs0 :=
      stripSensitive_of_norm fs0 hnorm.settingsOk hnorm.llmOk
    cases hid : project.jsGet "id" with
    | none =>
      rw [hid] at h
      have h' : ((Except.error () : Except Unit String), st, k2) = (.ok e, st1, k1) := h
      exact absurd (congrArg (fun t => t.1) h') (by simp)
    | some v =>
      cases v with
      | str pid =>
        rw [hid] at h
        have h' : ((Except.ok (etagOf (Json.obj (stripSensitive fs0))) :
              Except Unit String),
            (fun i => if i = pid then some (Json.obj (stripSensitive fs0))
              else st i : Store), k2) = (.ok e, st1, k1) := h
        rw [hstrip] at h'
        obtain ⟨ha, hb⟩ := Prod.mk.inj h'
        obtain ⟨hb1, hb2⟩ := Prod.mk.inj hb
        refine ⟨fs0, pid, ?_, hnorm, rfl, hb1.symm, (Except.ok.inj ha).symm⟩
        rw [hb2]
      | null =>
        rw [hid] at h
        have h' : ((Except.error () : Except Unit String), st, k2) = (.ok e, st1, k1) := h
        exact absurd (congrArg (fun t => t.1) h') (by simp)
      | bool b =>
        rw [hid] at h
        have h' : ((Except.error () : Except Unit String), st, k2) = (.ok e, st1, k1) := h
        exact absurd (congrArg (fun t => t.1) h') (by simp)
      | num n =>
        rw [hid] at h
        have h' : ((Except.error () : Except Unit String), st, k2) = (.ok e, st1, k1) := h
        exact absurd (congrArg (fun t => t.1) h') (by simp)
      | arr xs =>
        rw [hid] at h
        have h' : ((Except.error () : Except Unit String), st, k2) = (.ok e, st1, k1) := h
        exact absurd (congrArg (fun t => t.1) h') (by simp)
      | obj o =>
        rw [hid] at h
        have h' : ((Except.error () : Except Unit String), st, k2) = (.ok e, st1, k1) := h
        exact absurd (congrArg (fun t => t.1) h') (by simp)

/-! ### Evaluating the storage pipeline on the default document -/

/-- Every collection key of the default document already holds an array, so
the array-forcing loop leaves it unchanged. -/
theorem ensureArrays_dflt (pid title now : String) :
    ensureArrays (dfltFs pid title now) = dfltFs pid title now := by
  show List.foldl ensArrStep (dfltFs pid title now) arrayKeys = dfltFs pid title now
  rw [arrayKeys]
  rw [List.foldl_cons, show ensArrStep (dfltFs pid title now) "notation" = dfltFs pid title now from rfl]
  rw [List.foldl_cons, show ensArrStep (dfltFs pid title now) "definitions" = dfltFs pid title now from rfl]
  rw [List.foldl_cons, show ensArrStep (dfltFs pid title now) "facts" = dfltFs pid title now from rfl]
  rw [List.foldl_cons, show ensArrStep (dfltFs pid title now) "lemmas" = dfltFs pid title now from rfl]
  rw [List.foldl_cons, show ensArrStep (dfltFs pid title now) "conjectures" = dfltFs pid title now from rfl]
  rw [List.foldl_cons, show ensArrStep (dfltFs pid title now) "ideas" = dfltFs pid title now from rfl]
  rw [List.foldl_cons, show ensArrStep (dfltFs pid title now) "pitfalls" = dfltFs pid title now from rfl]
  rw [List.foldl_cons, show ensArrStep (dfltFs pid title now) "chatHistory" = dfltFs pid title now from rfl]
  rw [List.foldl_cons, show ensArrStep (dfltFs pid title now) "attempts" = dfltFs pid title now from rfl]
  rw [List.foldl_cons, show ensArrStep (dfltFs pid title now) "attachments" = dfltFs pid title now from rfl]
  rw [List.foldl_nil]

/-- The straight-line tail of the normalizer on the default field list: the
only change is the deletion of the (empty) legacy `chatHistory` entry. -/
theorem shapeTail_dflt (pid title now : String) (g : Nat → String) (k : Nat) :
    shapeTail now g (dfltFs pid title now) k =
      (Json.obj (normalFs pid title now), k) := by
  simp only [shapeTail]
  rw [show (setF (dfltFs pid title now) "chatHistory"
        (Json.arr (normChatHistory (arrOrNil (getF (dfltFs pid title now) "chatHistory"))))) =
      dfltFs pid title now from rfl]
  rw [show ensureStr (dfltFs pid title now) "abstract" "" = dfltFs pid title now from rfl]
  rw [show ensureOwner (dfltFs pid title now) = dfltFs pid title now from rfl]
  rw [show ensureStr (dfltFs pid title now) "title" "Untitled" = dfltFs pid title now from rfl]
  rw [show ensureStr (dfltFs pid title now) "createdAt" now = dfltFs pid title now from rfl]
  rw [show ensureStr (dfltFs pid title now) "updatedAt" now = dfltFs pid title now from rfl]
  rw [show normalizeChatThreads now g (dfltFs pid title now) k =
      (normalFs pid title now, k) from rfl]
  rw [show stripSensitive (normalFs pid title now) = normalFs pid title now from rfl]

/-- Normalizing the default document deletes its empty `chatHistory` array
and changes nothing else. -/
theorem ensureShape_dflt (pid title now : String) (g : Nat → String) (k : Nat) :
    ensureProjectShape now g (Json.obj (dfltFs pid title now)) k =
      .ok (Json.obj (normalFs pid title now), k) := by
  simp only [ensureProjectShape]
  rw [show spreadFields (Json.obj (dfltFs pid title now)) = dfltFs pid title now from rfl]
  rw [ensureArrays_dflt]
  rw [show getF (dfltFs pid title now) "lemmas" = some (Json.arr []) from rfl]
  show (pure (shapeTail now g (setF (dfltFs pid title now) "lemmas" (Json.arr [])) k) :
      Except Unit (Json × Nat)) = .ok (Json.obj (normalFs pid title now), k)
  rw [show setF (dfltFs pid title now) "lemmas" (Json.arr []) = dfltFs pid title now from rfl]
  rw [shapeTail_dflt]
  rfl

/-- `writeProject` forwards, pointwise: a successful normalization with an
object result and a string id produce the stripped document, its etag and
the store update. -/
theorem writeProject_eval (etagOf : Json → String) (now : String)
    (g : Nat → String) (st : Store) (p : Json) (k : Nat)
    (nfs : List (String × Json)) (k2 : Nat) (pid : String)
    (h : ensureProjectShape now g (Json.obj (spreadFields p)) k =
      .ok (Json.obj nfs, k2))
    (hid : p.jsGet "id" = some (Json.str pid)) :
    writeProject etagOf now g st p k =
      (.ok (etagOf (Json.obj (stripSensitive nfs))),
       fun i => if i = pid then some (Json.obj (stripSensitive nfs)) else st i,
       k2) := by
  unfold writeProject
  rw [h]
  show (match p.jsGet "id" with
    | some (Json.str pid) =>
      ((.ok (etagOf (Json.obj (stripSensitive nfs))) : Except Unit String),
       fun i => if i = pid then some (Json.obj (stripSensitive nfs)) else st i, k2)
    | _ => ((.error () : Except Unit String), st, k2)) = _
  rw [hid]

/-- Writing the raw default document stores the normalized default and
returns its etag. -/
theorem writeProject_dflt (etagOf : Json → String) (now : String)
    (g : Nat → String) (st : Store) (pid title : String) (k : Nat) :
    writeProject etagOf now g st (defaultProject pid title now) k =
      (.ok (etagOf (normalDefault pid title now)),
       fun i => if i = pid then some (normalDefault pid title now) else st i,
       k) := by
  have h : ensureProjectShape now g
      (Json.obj (spreadFields (defaultProject pid title now))) k =
      .ok (Json.obj (normalFs pid title now), k) := by
    rw [show spreadFields (defaultProject pid title now) = dfltFs pid title now from rfl]
    exact ensureShape_dflt pid title now g k
  have hw := writeProject_eval etagOf now g st (defaultProject pid title now) k
    (normalFs pid title now) k pid h rfl
  rw [hw]
  rw [show stripSensitive (normalFs pid title now) = normalFs pid title now from rfl]
  rfl

/-- `createProject` forwards, pointwise: on a fresh id, a successful write
of the default document yields the raw default together with the write's
etag and store. -/
theorem createProject_eval (etagOf : Json → String) (now : String)
    (g : Nat → String) (st : Store) (pid title : String) (k : Nat)
    (e : String) (st1 : Store) (k1 : Nat) (hnone : st pid = none)
    (hw : writeProject etagOf now g st (defaultProject pid title now) k =
      (.ok e, st1, k1)) :
    createProject etagOf now g st pid title k =
      (.ok (defaultProject pid title now, e), st1, k1) := by
  unfold createProject
  rw [hnone, if_neg (show ¬(none : Option Json).isSome = true by decide), hw]

/-- `createProject` on the empty store: the raw default comes back, the
normalized default goes to disk, and the etag hashes the latter. -/
theorem createProject_empty (etagOf : Json → String) (now : String)
    (g : Nat → String) (pid title : String) (k : Nat) :
    createProject etagOf now g (fun _ => none) pid title k =
      (.ok (defaultProject pid title now, etagOf (normalDefault pid title now)),
       fun i => if i = pid then some (normalDefault pid title now) else none,
       k) :=
  createProject_eval etagOf now g (fun _ => none) pid title k _ _ _ rfl
    (writeProject_dflt etagOf now g (fun _ => none) pid title k)

/-- The normalized default field list is in normal form. -/
theorem normalFs_norm (pid title now : String) :
    NormFields (normalFs pid title now) where
  chatHistoryGone := rfl
  notationArr := ⟨[], rfl⟩
  definitionsArr := ⟨[], rfl⟩
  factsArr := ⟨[], rfl⟩
  conjecturesArr := ⟨[], rfl⟩
  ideasArr := ⟨[], rfl⟩
  pitfallsArr := ⟨[], rfl⟩
  attemptsArr := ⟨[], rfl⟩
  attachmentsArr := ⟨[], rfl⟩
  lemmasOk := ⟨[], rfl, fun l hl => absurd hl (List.not_mem_nil l)⟩
  threadsOk := ⟨[], rfl, fun t ht => absurd ht (List.not_mem_nil t)⟩
  abstractStr := ⟨"", rfl⟩
  ownerStr := ⟨"local", rfl, by decide⟩
  titleStr := ⟨if title = "" then "Untitled" else title, rfl⟩
  createdStr := ⟨now, rfl⟩
  updatedStr := ⟨now, rfl⟩
  settingsOk := Or.inl rfl
  llmOk := Or.inl rfl

/-! ### Pointwise descriptions of the chat pipelines -/

/-- The value stored under a collection key after its `ensArrStep`: the
original array, or a fresh empty one. -/
theorem ensArrStep_val (acc : List (String × Json)) (key : String) :
    getF (ensArrStep acc key) key = some (Json.arr (arrOrNil (getF acc key))) := by
  unfold ensArrStep
  cases hget : getF acc key with
  | none =>
    rw [getF_setF_self]
    rfl
  | some v =>
    cases v with
    | arr xs => exact hget
    | null => rw [getF_setF_self]; rfl
    | bool b => rw [getF_setF_self]; rfl
    | num n => rw [getF_setF_self]; rfl
    | str a => rw [getF_setF_self]; rfl
    | obj o => rw [getF_setF_self]; rfl

/-- After the array-forcing loop, `chatHistory` holds exactly the input's
array elements (or `[]` when the input value was not an array). -/
theorem ensureArrays_chatHistory (fs : List (String × Json)) :
    getF (ensureArrays fs) "chatHistory" =
      some (Json.arr (arrOrNil (getF fs "chatHistory"))) := by
  show getF (List.foldl ensArrStep fs arrayKeys) "chatHistory" = _
  rw [show arrayKeys = ["notation", "definitions", "facts", "lemmas",
    "conjectures", "ideas", "pitfalls"] ++
    "chatHistory" :: ["attempts", "attachments"] from rfl]
  rw [List.foldl_append, List.foldl_cons]
  have h1 : getF (List.foldl ensArrStep fs ["notation", "definitions", "facts",
      "lemmas", "conjectures", "ideas", "pitfalls"]) "chatHistory" =
      getF fs "chatHistory" :=
    getF_foldl_ensArr_notin _ _ _ (by decide)
  have h2 := ensArrStep_val (List.foldl ensArrStep fs ["notation", "definitions",
    "facts", "lemmas", "conjectures", "ideas", "pitfalls"]) "chatHistory"
  rw [h1] at h2
  exact foldl_ensArr_preserves_val ["attempts", "attachments"] _ "chatHistory" _ h2

/-- `enumFrom` looks up pointwise. -/
theorem enumFrom_get (n : Nat) (l : List Json) (j : Nat) :
    (List.enumFrom n l).get? j = (l.get? j).map (fun a => (n + j, a)) := by
  induction l generalizing n j with
  | nil => simp
  | cons a t ih =>
    cases j with
    | zero => simp
    | succ j' =>
      show (List.enumFrom (n + 1) t).get? j' = (t.get? j').map (fun a => (n + (j' + 1), a))
      rw [ih (n + 1) j']
      have : n + 1 + j' = n + (j' + 1) := by omega
      rw [this]

/-- The legacy flat `chatHistory` pass, pointwise: position `j` of the output
is the `j`-th well-formed input message with its id defaulted to
`chat-<j>`, its role coerced and its content kept. -/
theorem normChatHistory_get (ms : List Json) (j : Nat)
    (hj : j < (ms.filter wfMsg).length) :
    (normChatHistory ms).get? j = some (Json.obj
      [("id", Json.str ((strNonempty (((ms.filter wfMsg).get ⟨j, hj⟩).jsGet
          "id")).getD ("chat-" ++ natToStr j))),
       ("role", roleVal ((ms.filter wfMsg).get ⟨j, hj⟩)),
       ("content", (((ms.filter wfMsg).get ⟨j, hj⟩).jsGet "content").getD
          Json.null)]) := by
  unfold normChatHistory
  rw [List.get?_map]
  rw [show List.enum (ms.filter wfMsg) = List.enumFrom 0 (ms.filter wfMsg) from rfl]
  rw [enumFrom_get, List.get?_eq_get hj]
  show some _ = some _
  rw [Nat.zero_add]

/-- The flat pass keeps exactly the well-formed messages, in order. -/
theorem normChatHistory_length (ms : List Json) :
    (normChatHistory ms).length = (ms.filter wfMsg).length := by
  unfold normChatHistory
  rw [List.length_map, List.enum_length]

/-- `normMsgsGo`, pointwise: position `j` of the output keeps the `j`-th
input's non-empty string id (else takes a freshly generated
`chat-<index>-<uuid>` one), coerces its role and copies its content. -/
theorem normMsgsGo_spec (g : Nat → String) (ms : List Json) (i k : Nat) :
    (normMsgsGo g ms i k).1.length = ms.length ∧
    ∀ j (hj : j < ms.length), ∃ kj,
      (normMsgsGo g ms i k).1.get? j = some (Json.obj
        [("id", Json.str (keepOrGen (strNonempty ((ms.get ⟨j, hj⟩).jsGet "id"))
            ("chat-" ++ natToStr (i + j)) g kj).1),
         ("role", roleVal (ms.get ⟨j, hj⟩)),
         ("content", ((ms.get ⟨j, hj⟩).jsGet "content").getD Json.null)]) := by
  induction ms generalizing i k with
  | nil => exact ⟨rfl, fun j hj => absurd hj (Nat.not_lt_zero j)⟩
  | cons m rest ih =>
    constructor
    · show ((normMsgsGo g rest (i + 1)
        (keepOrGen (strNonempty (m.jsGet "id")) ("chat-" ++ natToStr i) g k).2).1).length + 1 =
        rest.length + 1
      rw [(ih (i + 1) (keepOrGen (strNonempty (m.jsGet "id"))
        ("chat-" ++ natToStr i) g k).2).1]
    · intro j hj
      cases j with
      | zero =>
        refine ⟨k, ?_⟩
        show some (Json.obj
          [("id", Json.str (keepOrGen (strNonempty (m.jsGet "id"))
              ("chat-" ++ natToStr i) g k).1),
           ("role", roleVal m),
           ("content", (m.jsGet "content").getD Json.null)]) = _
        rfl
      | succ j' =>
        obtain ⟨kj, hkj⟩ := (ih (i + 1) (keepOrGen (strNonempty (m.jsGet "id"))
          ("chat-" ++ natToStr i) g k).2).2 j' (Nat.lt_of_succ_lt_succ hj)
        refine ⟨kj, ?_⟩
        show (normMsgsGo g rest (i + 1)
          (keepOrGen (strNonempty (m.jsGet "id")) ("chat-" ++ natToStr i) g k).2).1.get? j' = _
        rw [hkj]
        have : i + 1 + j' = i + (j' + 1) := by omega
        rw [this]
        rfl

/-! ### Claim theorems -/

/-- Claim C2.  The spec requires `normalize` to be total ("never fails"),
but `ensureProjectShape` reads `lemma.proof` without guarding against a
`null` element: on the valid JSON document `{"lemmas":[null]}` the code
throws a TypeError (embedded as `Except.error`) instead of returning a
repaired document — whatever the clock and id supply. -/
theorem claim_C2_normalize_throws_on_null_lemma (now : String)
    (g : Nat → String) (k : Nat) :
    ensureProjectShape now g (Json.obj [("lemmas", Json.arr [Json.null])]) k =
      .error () := rfl

/-- Claim C3.  Normalization is idempotent: whenever a first pass succeeds
and produces the document `y`, feeding `y` back through the normalizer —
under any clock, any fresh-id supply and any counter — succeeds and returns
`y` itself unchanged (no fresh ids, timestamps, titles or deletions). -/
theorem claim_C3_normalize_idempotent (x : Json) (now : String)
    (g : Nat → String) (k : Nat) (y : Json) (k1 : Nat)
    (h : ensureProjectShape now g x k = .ok (y, k1)) :
    ∀ (now' : String) (g' : Nat → String) (k' : Nat),
      ensureProjectShape now' g' y k' = .ok (y, k') := by
  obtain ⟨fs, hy, hnorm⟩ := ensureProjectShape_norm x now g k y k1 h
  subst hy
  intro now' g' k'
  exact ensureProjectShape_fixed fs hnorm now' g' k'

theorem claim_C3_witness :
    ensureProjectShape "T" (fun n => "u" ++ natToStr n) (Json.obj []) 0 =
      .ok (normEmptyDoc "T", 0) ∧
    ensureProjectShape "S" (fun n => "v" ++ natToStr n) (normEmptyDoc "T") 5 =
      .ok (normEmptyDoc "T", 5) :=
  ⟨rfl, claim_C3_normalize_idempotent (Json.obj []) "T" (fun n => "u" ++ natToStr n)
    0 (normEmptyDoc "T") 0 rfl "S" (fun n => "v" ++ natToStr n) 5⟩

/-- Claim C4.  `readProject` returns the store unchanged (the read path
performs no write), and on an existing stored document the returned etag is
the hash of the raw stored document — computed before normalization, not
over the normalized view. -/
theorem claim_C4_read_etag_over_raw_bytes (etagOf : Json → String)
    (now : String) (g : Nat → String) (st : Store) (pid : String) (k : Nat) :
    (readProject etagOf now g st pid k).2.1 = st ∧
    (∀ raw, st pid = some raw →
      ∀ p etag, (readProject etagOf now g st pid k).1 = .ok (p, etag) →
        etag = etagOf raw) := by
  constructor
  · unfold readProject
    cases hst : st pid with
    | none => rfl
    | some raw =>
      cases hn : ensureProjectShape now g raw k with
      | error e =>
        show (match ensureProjectShape now g raw k with
          | .error _ => ((.error StoreErr.internal : Except StoreErr (Json × String)), st, k)
          | .ok p => (.ok (p.1, etagOf raw), st, p.2)).2.1 = st
        rw [hn]
      | ok p =>
        show (match ensureProjectShape now g raw k with
          | .error _ => ((.error StoreErr.internal : Except StoreErr (Json × String)), st, k)
          | .ok p => (.ok (p.1, etagOf raw), st, p.2)).2.1 = st
        rw [hn]
  · intro raw hst p etag h
    unfold readProject at h
    rw [hst] at h
    have h' : (match ensureProjectShape now g raw k with
      | .error _ => ((.error StoreErr.internal : Except StoreErr (Json × String)), st, k)
      | .ok q => (.ok (q.1, etagOf raw), st, q.2)).1 = .ok (p, etag) := h
    cases hn : ensureProjectShape now g raw k with
    | error e =>
      rw [hn] at h'
      cases h'
    | ok q =>
      rw [hn] at h'
      have h'' : (Except.ok (q.1, etagOf raw) : Except StoreErr (Json × String)) =
        .ok (p, etag) := h'
      exact (congrArg Prod.snd (Except.ok.inj h'')).symm

theorem claim_C4_witness :
    (readProject (fun _ => "E") "T" (fun n => "u" ++ natToStr n)
      (fun i => if i = "p1" then some (Json.obj []) else none) "p1" 0).2.1 =
      (fun i => if i = "p1" then some (Json.obj []) else none) ∧
    ("E" : String) = (fun _ => "E") (Json.obj []) := by
  refine ⟨(claim_C4_read_etag_over_raw_bytes (fun _ => "E") "T"
    (fun n => "u" ++ natToStr n) _ "p1" 0).1, ?_⟩
  exact (claim_C4_read_etag_over_raw_bytes (fun _ => "E") "T"
    (fun n => "u" ++ natToStr n)
    (fun i => if i = "p1" then some (Json.obj []) else none) "p1" 0).2
    (Json.obj []) rfl (normEmptyDoc "T") "E" rfl

/-- Claim C8 (amended).  The five fragment renderers are pure functions of
the document: deep-equal inputs yield byte-identical text for every fragment
file, and the archive bytes agree whenever the per-entry date stamps agree
as well.  The claim's unconditional archive conjunct is false of the
program: JSZip records the current date in each entry (latex.js:105-109
passes no `date` option), so equal inputs at different instants give
different archive bytes; see the counterexample. -/
theorem claim_C8_export_deterministic
    (zipGen : List (String × String × String) → List Nat) (now : String)
    (p q : Json) (h : p = q) :
    renderMainTex p = renderMainTex q ∧
    renderNotationTex p = renderNotationTex q ∧
    renderFactsTex p = renderFactsTex q ∧
    renderLemmasTex p = renderLemmasTex q ∧
    renderConjecturesTex p = renderConjecturesTex q ∧
    buildLatexBundle zipGen now p = buildLatexBundle zipGen now q := by
  subst h
  exact ⟨rfl, rfl, rfl, rfl, rfl, rfl⟩

/-- Claim C8, counterexample to the archive conjunct: under an archiver
that — like JSZip — serializes the entry date stamps, the same project
archived at two different instants yields different bytes. -/
theorem claim_C8_counterexample :
    buildLatexBundle dateStampBytes "T1" (Json.obj []) ≠
      buildLatexBundle dateStampBytes "Time2" (Json.obj []) := by
  decide

theorem claim_C8_witness :
    renderMainTex (Json.obj []) = renderMainTex (Json.obj []) ∧
    renderNotationTex (Json.obj []) = renderNotationTex (Json.obj []) ∧
    renderFactsTex (Json.obj []) = renderFactsTex (Json.obj []) ∧
    renderLemmasTex (Json.obj []) = renderLemmasTex (Json.obj []) ∧
    renderConjecturesTex (Json.obj []) = renderConjecturesTex (Json.obj []) ∧
    buildLatexBundle dateStampBytes "T" (Json.obj []) =
      buildLatexBundle dateStampBytes "T" (Json.obj []) :=
  claim_C8_export_deterministic dateStampBytes "T" (Json.obj []) (Json.obj []) rfl

/-- Claim C9.  Unknown extra top-level fields survive normalization — and
the save-side write — with identical values: for every object input and
every key outside the repaired set, the normalized document holds exactly
the input's value, and the document stored by `writeProject` does too. -/
theorem claim_C9_unknown_fields_roundtrip (xf : List (String × Json))
    (now : String) (g : Nat → String) (k : Nat) (y : Json) (k1 : Nat)
    (h : ensureProjectShape now g (Json.obj xf) k = .ok (y, k1))
    (key : String) (hk : key ∉ repairedKeys) :
    y.jsGet key = getF xf key ∧
    (∀ (etagOf : Json → String) (st : Store) (e : String) (st1 : Store)
        (k2 : Nat),
      writeProject etagOf now g st (Json.obj xf) k = (.ok e, st1, k2) →
      ∃ pid doc, (Json.obj xf).jsGet "id" = some (Json.str pid) ∧
        st1 pid = some doc ∧ doc.jsGet key = getF xf key) := by
  have h0 : key ∉ arrayKeys := fun hm => hk (by
    unfold repairedKeys
    exact List.mem_append.mpr (Or.inl hm))
  have hne : ∀ key2, key2 ∈ (["chatThreads", "title", "abstract", "owner",
      "createdAt", "updatedAt", "settings", "llm"] : List String) → key ≠ key2 := by
    intro key2 hm2 he
    subst he
    exact hk (by unfold repairedKeys; exact List.mem_append.mpr (Or.inr hm2))
  constructor
  · exact ensureProjectShape_frame xf now g k y k1 h key h0
      (hne _ (by decide)) (hne _ (by decide)) (hne _ (by decide))
      (hne _ (by decide)) (hne _ (by decide)) (hne _ (by decide))
      (hne _ (by decide)) (hne _ (by decide))
  · intro etagOf st e st1 k2 hw
    obtain ⟨fs, pid, hensure, hnorm, hid, hst1, hetag⟩ :=
      writeProject_ok etagOf now g st (Json.obj xf) k e st1 k2 hw
    have hensure' : ensureProjectShape now g (Json.obj xf) k =
        .ok (Json.obj fs, k2) := hensure
    refine ⟨pid, Json.obj fs, hid, ?_, ?_⟩
    · rw [hst1]
      simp
    · exact ensureProjectShape_frame xf now g k (Json.obj fs) k2 hensure' key h0
        (hne _ (by decide)) (hne _ (by decide)) (hne _ (by decide))
        (hne _ (by decide)) (hne _ (by decide)) (hne _ (by decide))
        (hne _ (by decide)) (hne _ (by decide))

theorem claim_C9_witness :
    normEmptyExtra.jsGet "extra" = getF [("extra", Json.str "keepme")] "extra" :=
  (claim_C9_unknown_fields_roundtrip [("extra", Json.str "keepme")] "T"
    (fun n => "u" ++ natToStr n) 0 normEmptyExtra 0 rfl "extra" (by decide)).1

/-- Claim C10.  `createProject` returns the raw default document — which
still carries the legacy empty `chatHistory` array — while the document it
writes (and whose hash it returns as the etag) is the normalized default
from which `chatHistory` has been deleted; consequently the project object
returned by create differs from the one an immediately following read
returns. -/
theorem claim_C10_create_returns_unnormalized (etagOf : Json → String)
    (pid title now : String) (g : Nat → String) (k : Nat) :
    createProject etagOf now g (fun _ => none) pid title k =
      (.ok (defaultProject pid title now, etagOf (normalDefault pid title now)),
       fun i => if i = pid then some (normalDefault pid title now) else none,
       k) ∧
    (defaultProject pid title now).jsGet "chatHistory" = some (Json.arr []) ∧
    (normalDefault pid title now).jsGet "chatHistory" = none ∧
    (∀ (now' : String) (g' : Nat → String) (k' : Nat),
      readProject etagOf now' g'
        (fun i => if i = pid then some (normalDefault pid title now) else none)
        pid k' =
      (.ok (normalDefault pid title now, etagOf (normalDefault pid title now)),
       fun i => if i = pid then some (normalDefault pid title now) else none,
       k')) ∧
    defaultProject pid title now ≠ normalDefault pid title now := by
  refine ⟨createProject_empty etagOf now g pid title k, rfl, rfl, ?_, ?_⟩
  · intro now' g' k'
    exact readProject_some etagOf now' g'
      (fun i => if i = pid then some (normalDefault pid title now) else none)
      pid k' (normalDefault pid title now) (normalDefault pid title now) k'
      (if_pos rfl)
      (ensureProjectShape_fixed (normalFs pid title now)
        (normalFs_norm pid title now) now' g' k')
  · intro hpd
    have hch : (defaultProject pid title now).jsGet "chatHistory" =
        (normalDefault pid title now).jsGet "chatHistory" :=
      congrArg (fun j => j.jsGet "chatHistory") hpd
    rw [show (defaultProject pid title now).jsGet "chatHistory" =
      some (Json.arr []) from rfl] at hch
    rw [show (normalDefault pid title now).jsGet "chatHistory" = none from rfl] at hch
    cases hch

/-- Claim C1.  The save handler's concurrency guard: against a stored,
readable document, a save with a stale etag — one differing from the hash of
the currently stored bytes, re-read and re-hashed at save time — fails with
`PRECONDITION_FAILED` and leaves the store untouched; with the matching etag
the result is never `PRECONDITION_FAILED`; and after a successful save, a
second save replaying the original etag fails with `PRECONDITION_FAILED`
provided that etag does not also hash the newly stored document. -/
theorem claim_C1_save_etag_precondition (etagOf : Json → String)
    (nowR nowS nowW : String) (g : Nat → String) (st : Store) (project : Json)
    (etag : String) (k : Nat) (pid : String) (raw ex : Json) (kx : Nat)
    (hid : project.jsGet "id" = some (Json.str pid))
    (hetag : etag ≠ "")
    (hst : st pid = some raw)
    (hnorm : ensureProjectShape nowR g raw k = .ok (ex, kx)) :
    (etag ≠ etagOf raw →
      saveProject etagOf nowR nowS nowW g st project etag k =
        (.error .preconditionFailed, st, kx)) ∧
    (etag = etagOf raw →
      ∀ r st1 k1, saveProject etagOf nowR nowS nowW g st project etag k =
        (r, st1, k1) → r ≠ .error .preconditionFailed) ∧
    (∀ e1 st1 k1,
      saveProject etagOf nowR nowS nowW g st project etag k = (.ok e1, st1, k1) →
      ∀ doc1, st1 pid = some doc1 → etag ≠ etagOf doc1 →
      ∀ (nowR2 nowS2 nowW2 : String) (g2 : Nat → String) (project2 : Json)
        (k2 : Nat) (ex2 : Json) (kx2 : Nat),
        project2.jsGet "id" = some (Json.str pid) →
        ensureProjectShape nowR2 g2 doc1 k2 = .ok (ex2, kx2) →
        saveProject etagOf nowR2 nowS2 nowW2 g2 st1 project2 etag k2 =
          (.error .preconditionFailed, st1, kx2)) := by
  refine ⟨?_, ?_, ?_⟩
  · intro hne
    rw [saveProject_run etagOf nowR nowS nowW g st project etag k pid raw ex kx
      hid hetag hst hnorm]
    exact saveAfterRead_stale etagOf nowS nowW g st project etag ex
      (etagOf raw) kx hne
  · intro heq r st1 k1 hrun hr
    rw [saveProject_run etagOf nowR nowS nowW g st project etag k pid raw ex kx
      hid hetag hst hnorm] at hrun
    rw [saveAfterRead_match etagOf nowS nowW g st project etag ex
      (etagOf raw) kx heq] at hrun
    subst hr
    rcases hww : writeProject etagOf nowW g st (Json.obj (setF (setF
        (spreadFields project) "createdAt" ((ex.jsGet "createdAt").getD Json.null))
        "updatedAt" (Json.str nowS))) kx with ⟨r2, st2, k2⟩
    rw [hww] at hrun
    cases r2 with
    | error u =>
      have h' : ((.error SaveErr.internal : Except SaveErr String), st2, k2) =
        (.error SaveErr.preconditionFailed, st1, k1) := hrun
      exact absurd (congrArg (fun t => t.1) h') (by simp)
    | ok e2 =>
      have h' : ((.ok e2 : Except SaveErr String), st2, k2) =
        (.error SaveErr.preconditionFailed, st1, k1) := hrun
      exact absurd (congrArg (fun t => t.1) h') (by simp)
  · intro e1 st1 k1 hok doc1 hdoc hne2 nowR2 nowS2 nowW2 g2 project2 k2 ex2 kx2
      hid2 hnorm2
    rw [saveProject_run etagOf nowR2 nowS2 nowW2 g2 st1 project2 etag k2 pid
      doc1 ex2 kx2 hid2 hetag hdoc hnorm2]
    exact saveAfterRead_stale etagOf nowS2 nowW2 g2 st1 project2 etag ex2
      (etagOf doc1) kx2 hne2

/-- Claim C5 (amended).  Chat message normalization, in both the thread pass
and the legacy flat pass: messages whose content is not a string are dropped
(only the `wfMsg`-filtered ones survive, in order), a missing or empty
string id is replaced — by a freshly generated `chat-<index>-<uuid>` in the
thread pass, by the deterministic `chat-<index>` in the flat pass — and the
role is coerced to "user" unless it is exactly the string "assistant" (the
claim states the coercion in the opposite direction; see the
counterexample). -/
theorem claim_C5_chat_message_normalization (g : Nat → String)
    (mv : Option Json) (k : Nat) :
    (∀ m : Json, m.jsGet "role" = some (Json.str "assistant") →
      roleVal m = Json.str "assistant") ∧
    (∀ m : Json, m.jsGet "role" ≠ some (Json.str "assistant") →
      roleVal m = Json.str "user") ∧
    (normalizeMessages g mv k).1.length = ((arrOrNil mv).filter wfMsg).length ∧
    (∀ j (hj : j < ((arrOrNil mv).filter wfMsg).length), ∃ kj,
      (normalizeMessages g mv k).1.get? j = some (Json.obj
        [("id", Json.str (keepOrGen
            (strNonempty ((((arrOrNil mv).filter wfMsg).get ⟨j, hj⟩).jsGet "id"))
            ("chat-" ++ natToStr j) g kj).1),
         ("role", roleVal (((arrOrNil mv).filter wfMsg).get ⟨j, hj⟩)),
         ("content", ((((arrOrNil mv).filter wfMsg).get ⟨j, hj⟩).jsGet
            "content").getD Json.null)])) ∧
    (∀ ms : List Json, (normChatHistory ms).length = (ms.filter wfMsg).length) ∧
    (∀ (ms : List Json) j (hj : j < (ms.filter wfMsg).length),
      (normChatHistory ms).get? j = some (Json.obj
        [("id", Json.str ((strNonempty (((ms.filter wfMsg).get ⟨j, hj⟩).jsGet
            "id")).getD ("chat-" ++ natToStr j))),
         ("role", roleVal ((ms.filter wfMsg).get ⟨j, hj⟩)),
         ("content", (((ms.filter wfMsg).get ⟨j, hj⟩).jsGet "content").getD
            Json.null)])) := by
  refine ⟨?_, ?_, (normMsgsGo_spec g ((arrOrNil mv).filter wfMsg) 0 k).1, ?_,
    normChatHistory_length, normChatHistory_get⟩
  · intro m hm
    unfold roleVal
    rw [if_pos hm]
  · intro m hm
    unfold roleVal
    rw [if_neg hm]
  · intro j hj
    obtain ⟨kj, hkj⟩ := (normMsgsGo_spec g ((arrOrNil mv).filter wfMsg) 0 k).2 j hj
    refine ⟨kj, ?_⟩
    rw [show (0 : Nat) + j = j from Nat.zero_add j] at hkj
    exact hkj

/-- Claim C5, counterexample to the claimed direction of the role coercion:
a message whose role is the string "system" (not "user") is coerced to
"user", not to "assistant" as the claim asserts. -/
theorem claim_C5_counterexample :
    (normalizeMessages (fun _ => "u") (some (Json.arr [Json.obj
      [("id", Json.str "m1"), ("role", Json.str "system"),
       ("content", Json.str "hi")]])) 0).1 =
      [Json.obj [("id", Json.str "m1"), ("role", Json.str "user"),
        ("content", Json.str "hi")]] ∧
    Json.str "user" ≠ Json.str "assistant" :=
  ⟨rfl, by decide⟩

/-- Claim C7.  A successful save against an existing stored document stores
a document whose `createdAt` is the one of the previously stored document
(whatever `createdAt` the caller's payload carried), whose `updatedAt` is
the freshly stamped instant, whose etag is returned, and whose remaining
non-repaired fields come from the caller's payload. -/
theorem claim_C7_save_preserves_createdAt (etagOf : Json → String)
    (nowR nowS nowW : String) (g : Nat → String) (st : Store) (project : Json)
    (etag : String) (k : Nat) (pid : String) (raw ex : Json) (kx : Nat)
    (e1 : String) (st1 : Store) (k1 : Nat) (c : String)
    (hid : project.jsGet "id" = some (Json.str pid))
    (hetag : etag ≠ "")
    (hst : st pid = some raw)
    (hnorm : ensureProjectShape nowR g raw k = .ok (ex, kx))
    (hc : ex.jsGet "createdAt" = some (Json.str c))
    (hsave : saveProject etagOf nowR nowS nowW g st project etag k =
      (.ok e1, st1, k1)) :
    ∃ fs', st1 pid = some (Json.obj fs') ∧
      getF fs' "createdAt" = some (Json.str c) ∧
      getF fs' "updatedAt" = some (Json.str nowS) ∧
      e1 = etagOf (Json.obj fs') ∧
      ∀ key, key ∉ repairedKeys →
        getF fs' key = getF (spreadFields project) key := by
  rw [saveProject_run etagOf nowR nowS nowW g st project etag k pid raw ex kx
    hid hetag hst hnorm] at hsave
  by_cases heq : etag = etagOf raw
  · rw [saveAfterRead_match etagOf nowS nowW g st project etag ex
      (etagOf raw) kx heq] at hsave
    rcases hww : writeProject etagOf nowW g st (Json.obj (setF (setF
        (spreadFields project) "createdAt" ((ex.jsGet "createdAt").getD Json.null))
        "updatedAt" (Json.str nowS))) kx with ⟨r2, st2, k2⟩
    rw [hww] at hsave
    cases r2 with
    | error u =>
      have h' : ((.error SaveErr.internal : Except SaveErr String), st2, k2) =
        (.ok e1, st1, k1) := hsave
      exact absurd (congrArg (fun t => t.1) h') (by simp)
    | ok e2 =>
      have h' : ((.ok e2 : Except SaveErr String), st2, k2) =
        (.ok e1, st1, k1) := hsave
      obtain ⟨ha, hb⟩ := Prod.mk.inj h'
      obtain ⟨hb1, hb2⟩ := Prod.mk.inj hb
      have he2 : e2 = e1 := Except.ok.inj ha
      obtain ⟨fs, pid2, hens, hnormF, hid2, hst2, hetag2⟩ :=
        writeProject_ok etagOf nowW g st _ kx e2 st2 k2 hww
      have hpid2 : pid2 = pid := by
        have hv : getF (setF (setF (spreadFields project) "createdAt"
            ((ex.jsGet "createdAt").getD Json.null)) "updatedAt"
            (Json.str nowS)) "id" = getF (spreadFields project) "id" := by
          rw [getF_setF_ne _ _ _ _ (by decide), getF_setF_ne _ _ _ _ (by decide)]
        have hid2' : getF (setF (setF (spreadFields project) "createdAt"
            ((ex.jsGet "createdAt").getD Json.null)) "updatedAt"
            (Json.str nowS)) "id" = some (Json.str pid2) := hid2
        rw [hv] at hid2'
        cases hproj : project with
        | obj pf =>
          rw [hproj] at hid hid2'
          have : some (Json.str pid2) = some (Json.str pid) := by
            rw [← hid2', ← hid]
            rfl
          exact Json.str.inj (Option.some.inj this)
        | null => rw [hproj] at hid; cases hid
        | bool b => rw [hproj] at hid; cases hid
        | num n => rw [hproj] at hid; cases hid
        | str a => rw [hproj] at hid; cases hid
        | arr xs =>
          rw [hproj] at hid
          cases hid
      refine ⟨fs, ?_, ?_, ?_, ?_, ?_⟩
      · rw [← hb1, hst2, hpid2]
        show (if pid = pid then some (Json.obj fs) else st pid) =
          some (Json.obj fs)
        rw [if_pos rfl]
      · have hcreated : getF (setF (setF (spreadFields project) "createdAt"
            ((ex.jsGet "createdAt").getD Json.null)) "updatedAt"
            (Json.str nowS)) "createdAt" = some (Json.str c) := by
          rw [getF_setF_ne _ _ _ _ (by decide), getF_setF_self, hc]
          rfl
        exact ensureProjectShape_preserves_createdAt _ nowW g kx
          (Json.obj fs) k2 c hens hcreated
      · have hupd : getF (setF (setF (spreadFields project) "createdAt"
            ((ex.jsGet "createdAt").getD Json.null)) "updatedAt"
            (Json.str nowS)) "updatedAt" = some (Json.str nowS) :=
          getF_setF_self _ _ _
        exact ensureProjectShape_stamps_updatedAt _ nowW g kx
          (Json.obj fs) k2 nowS hens hupd
      · rw [← he2, hetag2]
      · intro key hk
        have h0 : key ∉ arrayKeys := fun hm => hk (by
          unfold repairedKeys
          exact List.mem_append.mpr (Or.inl hm))
        have hne : ∀ key2, key2 ∈ (["chatThreads", "title", "abstract",
            "owner", "createdAt", "updatedAt", "settings", "llm"] :
            List String) → key ≠ key2 := by
          intro key2 hm2 he
          subst he
          exact hk (by unfold repairedKeys; exact List.mem_append.mpr (Or.inr hm2))
        have hfr := ensureProjectShape_frame _ nowW g kx (Json.obj fs) k2 hens
          key h0 (hne _ (by decide)) (hne _ (by decide)) (hne _ (by decide))
          (hne _ (by decide)) (hne _ (by decide)) (hne _ (by decide))
          (hne _ (by decide)) (hne _ (by decide))
        have hfr' : getF fs key = getF (setF (setF (spreadFields project)
            "createdAt" ((ex.jsGet "createdAt").getD Json.null)) "updatedAt"
            (Json.str nowS)) key := hfr
        rw [hfr', getF_setF_ne _ _ _ _ (hne _ (by decide)),
          getF_setF_ne _ _ _ _ (hne _ (by decide))]
  · rw [saveAfterRead_stale etagOf nowS nowW g st project etag ex
      (etagOf raw) kx heq] at hsave
    exact absurd (congrArg (fun t => t.1) hsave) (by simp)

set_option maxHeartbeats 1600000 in
/-- Claim C6.  When `chatThreads` is absent or an empty list, normalization
falls back to the legacy flat `chatHistory`: if its pass keeps at least one
well-formed message, exactly one thread titled "Thread #1" carrying those
messages (in their original order) is synthesized; if it keeps none, the
thread list is empty; and the flat `chatHistory` field is never retained in
the output. -/
theorem claim_C6_legacy_chat_migration (xf : List (String × Json))
    (now : String) (g : Nat → String) (k : Nat) (y : Json) (k1 : Nat)
    (h : ensureProjectShape now g (Json.obj xf) k = .ok (y, k1))
    (hT : getF xf "chatThreads" = none ∨
      getF xf "chatThreads" = some (Json.arr [])) :
    y.jsGet "chatHistory" = none ∧
    (normChatHistory (arrOrNil (getF xf "chatHistory")) = [] →
      y.jsGet "chatThreads" = some (Json.arr [])) ∧
    (normChatHistory (arrOrNil (getF xf "chatHistory")) ≠ [] →
      ∃ tid, y.jsGet "chatThreads" = some (Json.arr [Json.obj
        [("id", Json.str tid), ("title", Json.str "Thread #1"),
         ("messages", Json.arr (normChatHistory (arrOrNil (getF xf "chatHistory")))),
         ("createdAt", Json.str now), ("updatedAt", Json.str now)]])) := by
  obtain ⟨ls, hls⟩ := foldl_ensArr_establishes arrayKeys
    (spreadFields (Json.obj xf)) "lemmas" (Or.inl (by decide))
  have hls' : getF (ensureArrays (spreadFields (Json.obj xf))) "lemmas" =
      some (Json.arr ls) := hls
  unfold ensureProjectShape at h
  simp only [hls'] at h
  cases hmap : ls.mapM fixLemma with
  | error e =>
    have hmap' : ls.mapM fixLemma = Except.error e := hmap
    simp only [hmap'] at h
    have hcon : (Except.error e : Except Unit (Json × Nat)) = Except.ok (y, k1) := h
    cases hcon
  | ok ls' =>
    have hmap' : ls.mapM fixLemma = pure ls' := hmap
    simp only [hmap', pure_bind] at h
    have h4 : shapeTail now g (setF (ensureArrays (spreadFields (Json.obj xf)))
        "lemmas" (Json.arr ls')) k = (y, k1) := Except.ok.inj h
    have hy : y = (shapeTail now g (setF (ensureArrays (spreadFields (Json.obj xf)))
        "lemmas" (Json.arr ls')) k).1 := (congrArg Prod.fst h4).symm
    have hch2 : getF (setF (ensureArrays (spreadFields (Json.obj xf))) "lemmas"
        (Json.arr ls')) "chatHistory" =
        some (Json.arr (arrOrNil (getF xf "chatHistory"))) := by
      rw [getF_setF_ne _ _ _ _ (by decide)]
      exact ensureArrays_chatHistory (spreadFields (Json.obj xf))
    have hT2 : getF (setF (ensureArrays (spreadFields (Json.obj xf))) "lemmas"
        (Json.arr ls')) "chatThreads" = getF xf "chatThreads" := by
      rw [getF_setF_ne _ _ _ _ (by decide)]
      show getF (List.foldl ensArrStep (spreadFields (Json.obj xf)) arrayKeys)
        "chatThreads" = getF xf "chatThreads"
      rw [getF_foldl_ensArr_notin arrayKeys _ _ (by decide)]
      rfl
    have hFS8ch : getF (ensureStr (ensureStr (ensureStr (ensureOwner (ensureStr
        (setF (setF (ensureArrays (spreadFields (Json.obj xf))) "lemmas"
          (Json.arr ls')) "chatHistory" (Json.arr (normChatHistory (arrOrNil
          (getF (setF (ensureArrays (spreadFields (Json.obj xf))) "lemmas"
          (Json.arr ls')) "chatHistory"))))) "abstract" "")) "title" "Untitled")
        "createdAt" now) "updatedAt" now) "chatHistory" =
        some (Json.arr (normChatHistory (arrOrNil (getF xf "chatHistory")))) := by
      rw [getF_ensureStr_ne _ _ _ _ (by decide), getF_ensureStr_ne _ _ _ _ (by decide),
        getF_ensureStr_ne _ _ _ _ (by decide), getF_ensureOwner_ne _ _ (by decide),
        getF_ensureStr_ne _ _ _ _ (by decide), getF_setF_self, hch2]
      rfl
    have hFS8T : arrOrNil (getF (ensureStr (ensureStr (ensureStr (ensureOwner
        (ensureStr (setF (setF (ensureArrays (spreadFields (Json.obj xf)))
        "lemmas" (Json.arr ls')) "chatHistory" (Json.arr (normChatHistory
        (arrOrNil (getF (setF (ensureArrays (spreadFields (Json.obj xf)))
        "lemmas" (Json.arr ls')) "chatHistory"))))) "abstract" "")) "title"
        "Untitled") "createdAt" now) "updatedAt" now) "chatThreads") = [] := by
      rw [getF_ensureStr_ne _ _ _ _ (by decide), getF_ensureStr_ne _ _ _ _ (by decide),
        getF_ensureStr_ne _ _ _ _ (by decide), getF_ensureOwner_ne _ _ (by decide),
        getF_ensureStr_ne _ _ _ _ (by decide), getF_setF_ne _ _ _ _ (by decide),
        hT2]
      rcases hT with h' | h' <;> rw [h'] <;> rfl
    have hfall := normalizeChatThreads_fallback now g (ensureStr (ensureStr
      (ensureStr (ensureOwner (ensureStr (setF (setF (ensureArrays (spreadFields
      (Json.obj xf))) "lemmas" (Json.arr ls')) "chatHistory" (Json.arr
      (normChatHistory (arrOrNil (getF (setF (ensureArrays (spreadFields
      (Json.obj xf))) "lemmas" (Json.arr ls')) "chatHistory"))))) "abstract" ""))
      "title" "Untitled") "createdAt" now) "updatedAt" now) k
      (normChatHistory (arrOrNil (getF xf "chatHistory"))) hFS8T hFS8ch
      (normChatHistory_norm _)
    rw [hy]
    unfold shapeTail
    simp only []
    refine ⟨?_, ?_, ?_⟩
    · show getF (stripSensitive (normalizeChatThreads now g _ k).1)
        "chatHistory" = none
      rw [getF_stripSensitive_ne _ _ (by decide) (by decide), hfall]
      by_cases hE : (normChatHistory (arrOrNil (getF xf "chatHistory"))).isEmpty
      · rw [if_pos hE]
        exact getF_delF_self _ _
      · rw [if_neg hE]
        exact getF_delF_self _ _
    · intro hnil
      show getF (stripSensitive (normalizeChatThreads now g _ k).1)
        "chatThreads" = some (Json.arr [])
      rw [getF_stripSensitive_ne _ _ (by decide) (by decide), hfall,
        if_pos (by rw [hnil]; rfl)]
      rw [getF_delF_ne _ _ _ (by decide), getF_setF_self]
    · intro hne
      refine ⟨(generateId "thread" g k).1, ?_⟩
      show getF (stripSensitive (normalizeChatThreads now g _ k).1)
        "chatThreads" = _
      rw [getF_stripSensitive_ne _ _ (by decide) (by decide), hfall,
        if_neg (fun hc => hne (List.isEmpty_iff.mp hc))]
      rw [getF_delF_ne _ _ _ (by decide), getF_setF_self]

theorem claim_C1_witness :
    saveProject (fun _ => "E") "T" "S" "W" (fun n => "u" ++ natToStr n)
      (fun j => if j = "p1" then some (Json.obj []) else none)
      (Json.obj [("id", Json.str "p1")]) "X" 0 =
      (.error .preconditionFailed,
       fun j => if j = "p1" then some (Json.obj []) else none, 0) :=
  (claim_C1_save_etag_precondition (fun _ => "E") "T" "S" "W"
    (fun n => "u" ++ natToStr n)
    (fun j => if j = "p1" then some (Json.obj []) else none)
    (Json.obj [("id", Json.str "p1")]) "X" 0 "p1" (Json.obj [])
    (normEmptyDoc "T") 0 rfl (by decide) rfl rfl).1 (by decide)

theorem claim_C5_witness :
    roleVal (Json.obj [("role", Json.str "system")]) = Json.str "user" ∧
    (normalizeMessages (fun _ => "u") (some (Json.arr [Json.obj
      [("id", Json.str "a"), ("role", Json.str "assistant"),
       ("content", Json.str "x")]])) 0).1.length = 1 := by
  refine ⟨(claim_C5_chat_message_normalization (fun _ => "u") none 0).2.1
    (Json.obj [("role", Json.str "system")]) (by decide), ?_⟩
  have h := (claim_C5_chat_message_normalization (fun _ => "u")
    (some (Json.arr [Json.obj [("id", Json.str "a"),
      ("role", Json.str "assistant"), ("content", Json.str "x")]])) 0).2.2.1
  rw [h]
  rfl

theorem claim_C6_witness :
    ∃ tid, legacyMigratedDoc.jsGet "chatThreads" = some (Json.arr [Json.obj
      [("id", Json.str tid), ("title", Json.str "Thread #1"),
       ("messages", Json.arr (normChatHistory (arrOrNil (getF
         [("chatHistory", Json.arr
           [Json.obj [("id", Json.str "a"), ("role", Json.str "assistant"),
              ("content", Json.str "x")],
            Json.obj [("id", Json.str "b"), ("role", Json.str "system"),
              ("content", Json.str "y")]])] "chatHistory")))),
       ("createdAt", Json.str "T"), ("updatedAt", Json.str "T")]]) :=
  (claim_C6_legacy_chat_migration
    [("chatHistory", Json.arr
      [Json.obj [("id", Json.str "a"), ("role", Json.str "assistant"),
         ("content", Json.str "x")],
       Json.obj [("id", Json.str "b"), ("role", Json.str "system"),
         ("content", Json.str "y")]])]
    "T" (fun _ => "u0") 0 legacyMigratedDoc 1 rfl
    (Or.inl rfl)).2.2 (by decide)

theorem claim_C7_witness :
    ∃ fs', (fun i => if i = "p1" then some (Json.obj storedAfterSave)
        else (fun j => if j = "p1" then some (Json.obj ([] : List (String × Json)))
          else none) i) "p1" = some (Json.obj fs') ∧
      getF fs' "createdAt" = some (Json.str "T") ∧
      getF fs' "updatedAt" = some (Json.str "S") ∧
      "E" = (fun _ => "E") (Json.obj fs') ∧
      ∀ key, key ∉ repairedKeys →
        getF fs' key = getF (spreadFields (Json.obj [("id", Json.str "p1"),
          ("createdAt", Json.str "WRONG")])) key :=
  claim_C7_save_preserves_createdAt (fun _ => "E") "T" "S" "W"
    (fun n => "u" ++ natToStr n)
    (fun j => if j = "p1" then some (Json.obj []) else none)
    (Json.obj [("id", Json.str "p1"), ("createdAt", Json.str "WRONG")])
    "E" 0 "p1" (Json.obj []) (normEmptyDoc "T") 0 "E"
    (fun i => if i = "p1" then some (Json.obj storedAfterSave)
      else (fun j => if j = "p1" then some (Json.obj ([] : List (String × Json)))
        else none) i) 0 "T"
    rfl (by decide) rfl rfl rfl rfl

end MathCursor